import Mathlib

/-!
# Verification of the `pasta` format-preserving AST engine

This file gives a shallow embedding, in Lean 4, of the core of the `pasta`
repository (a format-preserving Python AST annotation/regeneration engine)
and proves/refutes a fixed list of claims about it.

The embedding covers three cooperating parts of the code base:

1. the annotation pass (`pasta/base/annotate.py`, class `AstAnnotator` over
   the traversal order of `BaseVisitor`), embedded for a representative
   fragment of the node kinds handled there (`Module`, `Expr`, `Name`,
   `Num`, `Import`, `ImportFrom`, `If`/`elif`, `Pass`), together with a
   code-generation pass replaying captured formatting records;
2. the static scope analysis (`pasta/base/scope.py`: `ScopeVisitor`,
   `Scope`, `RootScope`, `Name`);
3. the import-splitting structural edit (`pasta/augment/import_utils.py`,
   function `split_import`).

The repository's `token_generator.py`, `codegen.py` and `ast_utils.py` are
not available in the sources; the small parts of their behaviour required
here (token-stream primitives, replay of captured formatting, property
bags) are modelled from the specification and are marked as such in the
doc comments of the corresponding definitions.

State that Python mutates in place (token stream cursors, property dicts
on nodes, the scope stack, `Name` objects shared between tables) is made
explicit: the annotator threads a token-stream value and returns decorated
copies of the nodes, the scope visitor threads an explicit state whose
`Name` objects live in an indexed store (modelling Python object identity
and sharing), and `split_import` returns the list of mutations it performs
in program order, so that "the error is raised before any mutation" is a
statement about that list.

Recursive passes are written with an explicit fuel parameter (structural
recursion on the fuel) so that every definition is executable and reduces
inside the kernel; fuel exhaustion is a distinguished error that never
occurs when the fuel exceeds the tree depth, and all theorems quantify
over the fuel.
-/

namespace Pasta

/-! ## Preliminaries -/

/-- `needle` is a prefix of `hay` (on character lists). -/
def listIsPre : List Char → List Char → Bool
| [], _ => true
| _ :: _, [] => false
| a :: as, b :: bs => a == b && listIsPre as bs

/-- `needle` occurs as a contiguous sublist of `hay`. -/
def listHasSub (needle : List Char) : List Char → Bool
| [] => needle.isEmpty
| b :: bs => listIsPre needle (b :: bs) || listHasSub needle bs

/-- Python's substring test `needle in hay` on strings, as used by
`AstAnnotator.token` to classify bracket tokens (`token[1] in '({['`). -/
def pyInStr (needle hay : String) : Bool :=
  listHasSub needle.data hay.data

/-- `s.split(c)` with Python semantics for a one-character separator
(an auxiliary over the character list; `acc` is the reversed current
chunk). -/
def splitCharAux (c : Char) : List Char → List Char → List String
| [], acc => [String.mk acc.reverse]
| x :: xs, acc =>
  if x == c then String.mk acc.reverse :: splitCharAux c xs []
  else splitCharAux c xs (x :: acc)

/-- `name.split('.')` (Python `str.split` with a one-character
separator). -/
def splitDots (s : String) : List String := splitCharAux '.' s.data []

/-- `'.'.join(parts)`. -/
def joinDots : List String → String
| [] => ""
| [s] => s
| s :: rest => s ++ "." ++ joinDots rest

/-- A property value stored on a node: models the values that
`pasta` stores via `ast_utils.setprop` (dependency snapshots of node
fields, and the `is_elif` marker). -/
inductive PVal where
| intV (n : Int)
| natV (n : Nat)
| strV (s : String)
| optStrV (s : Option String)
| boolV (b : Bool)
deriving DecidableEq, Repr

/-- Lookup in an association list of node properties. -/
def lookupD : List (String × PVal) → String → Option PVal
| [], _ => none
| (k, v) :: rest, key => if k = key then some v else lookupD rest key

/-! ## Token stream

`token_generator.py` is not part of the available sources; the stream is
modelled from the specification (§4.1 of the spec): an ordered,
forward-only cursor over tokens plus an explicit parenthesis-nesting
counter.  A token is either a run of non-significant text (whitespace,
comments; `nl` records whether the run contains a newline) or a
significant token with a coarse kind. -/

inductive TokKind where
| nameK
| numberK
| opK
deriving DecidableEq, Repr

inductive Tok where
| wst (text : String) (nl : Bool)
| tk (kind : TokKind) (text : String)
deriving DecidableEq, Repr

/-- The raw text of a token. -/
def Tok.text : Tok → String
| .wst s _ => s
| .tk _ s => s

/-- The source text represented by a token stream: the concatenation of
all token texts. -/
def sourceText : List Tok → String
| [] => ""
| t :: rest => t.text ++ sourceText rest

/-- The token-stream state: remaining tokens plus the parenthesis-nesting
counter maintained by `hint_open`/`hint_closed`. -/
structure TS where
  toks : List Tok
  parens : Nat
deriving DecidableEq, Repr

/-- Errors of the annotation pass.  `exhaustedStream` models
`ExhaustedStreamError` (the stream ends too early), `tokenMismatch`
models the error raised by `AstAnnotator.token` when the next token's
text differs from the expected value, `lexicalMismatch` models
`LexicalMismatchError` from `next_of_type`.  `fuelOut` is an artifact of
the fuel-based embedding and never occurs for sufficient fuel. -/
inductive AErr where
| exhaustedStream
| tokenMismatch (expected found : String)
| lexicalMismatch
| fuelOut
deriving DecidableEq, Repr

/-- `hint_open`: bump the nesting counter (modelled from the spec). -/
def hintOpen (ts : TS) : TS := ⟨ts.toks, ts.parens + 1⟩

/-- `hint_closed`: pop the nesting counter (modelled from the spec). -/
def hintClosed (ts : TS) : TS := ⟨ts.toks, ts.parens - 1⟩

/-- Modelled from the spec: `TokenGenerator.whitespace(oneline)` greedily
consumes a run of non-significant tokens and returns the exact consumed
text; when `oneline` is true a newline-containing run is only consumed
while the nesting depth is positive. -/
def wsRun (oneline : Bool) (depth : Nat) : List Tok → String × List Tok
| .wst s nl :: rest =>
  if oneline && nl && depth == 0 then ("", .wst s nl :: rest)
  else
    let p := wsRun oneline depth rest
    (s ++ p.1, p.2)
| l => ("", l)

/-- Whitespace consumption on the full stream state. -/
def wsF (oneline : Bool) (ts : TS) : String × TS :=
  let p := wsRun oneline ts.parens ts.toks
  (p.1, ⟨p.2, ts.parens⟩)

/-- `AstAnnotator.token` (annotate.py): consume the next token, which must
have exactly the given text, else fail; track parenthesis nesting when the
consumed token opens or closes a grouping (the `in '({['` tests reproduce
Python's substring semantics). -/
def tokenF (v : String) (ts : TS) : Except AErr TS :=
  match ts.toks with
  | [] => .error .exhaustedStream
  | t :: rest =>
    if t.text = v then
      let ts1 : TS := ⟨rest, ts.parens⟩
      if pyInStr t.text "(\x7b[" then .ok (hintOpen ts1)
      else if pyInStr t.text ")\x7d]" then .ok (hintClosed ts1)
      else .ok ts1
    else .error (.tokenMismatch v t.text)

/-- Modelled from the spec: `next_of_type(NUMBER)` pulls the exact
spelling of the next numeric literal; here restricted to the head token
(in a successful annotation the preceding whitespace has already been
consumed, so the literal is the next token). -/
def nextNumF (ts : TS) : Except AErr (String × TS) :=
  match ts.toks with
  | .tk .numberK s :: rest => .ok (s, ⟨rest, ts.parens⟩)
  | _ => .error .lexicalMismatch

/-- Modelled from the spec: `next_name` consults the next unconsumed NAME
token (and does not advance the cursor); used by `check_is_elif`. -/
def nextNameText : List Tok → Option String
| [] => none
| .tk .nameK s :: _ => some s
| _ :: rest => nextNameText rest

/-! ## Formatting records and `attr`

`ast_utils.setprop`/`appendprop` are not in the available sources; the
formatting storage is modelled from the spec (§3 FormattingRecord): each
`attr` call appends one record (slot name, captured text) to the node, in
traversal order, and dependency snapshots are stored separately under
`dep ++ "__src"` keys, exactly as `AstAnnotator.attr` does. -/

structure PRec where
  key : String
  text : String
deriving DecidableEq, Repr

/-- One element of an `attr_vals` list in `AstAnnotator.attr`:
a literal string (matched as one exact token), a whitespace consumer
(`self.ws` with its `oneline` flag), or the numeric-literal consumer used
by `visit_Num`. -/
inductive APart where
| lit (s : String)
| wsp (oneline : Bool)
| numT
deriving DecidableEq, Repr

/-- Walk an `attr_vals` list, concatenating the text produced by each
part, as in the loop of `AstAnnotator.attr`. -/
def runParts : List APart → TS → Except AErr (String × TS)
| [], ts => .ok ("", ts)
| .lit v :: ps, ts =>
  match tokenF v ts with
  | .error e => .error e
  | .ok ts1 =>
    match runParts ps ts1 with
    | .error e => .error e
    | .ok (s, ts2) => .ok (v ++ s, ts2)
| .wsp o :: ps, ts =>
  let p := wsF o ts
  match runParts ps p.2 with
  | .error e => .error e
  | .ok (s, ts2) => .ok (p.1 ++ s, ts2)
| .numT :: ps, ts =>
  match nextNumF ts with
  | .error e => .error e
  | .ok (s0, ts1) =>
    match runParts ps ts1 with
    | .error e => .error e
    | .ok (s, ts2) => .ok (s0 ++ s, ts2)

/-- `AstAnnotator.attr`: parse the parts and record the concatenated
result under the slot name (the dependency snapshot is attached by the
caller, which knows the node's current field values). -/
def attrF (key : String) (ps : List APart) (ts : TS) : Except AErr (PRec × TS) :=
  match runParts ps ts with
  | .error e => .error e
  | .ok (s, ts1) => .ok (⟨key, s⟩, ts1)

/-! ## The AST fragment

The node kinds of `annotate.py` embedded here.  Fields mirror the Python
`ast` fields used by the corresponding visit methods. -/

structure IAlias where
  name : String
  asname : Option String
deriving DecidableEq, Repr

inductive Node where
| Module (body : List Node)
| ExprS (value : Node)
| NameE (id : String)
| NumE (n : Int)
| ImportS (names : List IAlias)
| ImportF (module : Option String) (names : List IAlias) (level : Nat)
| IfS (test : Node) (body : List Node) (orelse : List Node)
| PassS
deriving Repr

/-- `isinstance(node, ast.If)`. -/
def isIfNode : Node → Bool
| .IfS _ _ _ => true
| _ => false

/-- An annotated alias: the alias fields plus its formatting records. -/
structure AAlias where
  name : String
  asname : Option String
  recs : List PRec
deriving Repr

/-- An annotated node: the node fields plus its formatting records (in
traversal order) and its snapshot/marker properties. -/
inductive ANode where
| Module (body : List ANode) (recs : List PRec)
| ExprS (value : ANode) (recs : List PRec)
| NameE (id : String) (recs : List PRec)
| NumE (n : Int) (recs : List PRec) (deps : List (String × PVal))
| ImportS (names : List AAlias) (recs : List PRec)
| ImportF (module : Option String) (names : List AAlias) (level : Nat)
    (recs : List PRec) (deps : List (String × PVal))
| IfS (test : ANode) (body : List ANode) (orelse : List ANode)
    (recs : List PRec) (deps : List (String × PVal))
| PassS (recs : List PRec)
deriving Repr

/-- The formatting records of an annotated node. -/
def ANode.recsOf : ANode → List PRec
| .Module _ recs => recs
| .ExprS _ recs => recs
| .NameE _ recs => recs
| .NumE _ recs _ => recs
| .ImportS _ recs => recs
| .ImportF _ _ _ recs _ => recs
| .IfS _ _ _ recs _ => recs
| .PassS recs => recs

/-- The snapshot/marker properties of an annotated node. -/
def ANode.depsOf : ANode → List (String × PVal)
| .NumE _ _ deps => deps
| .ImportF _ _ _ _ deps => deps
| .IfS _ _ _ _ deps => deps
| _ => []

/-- Append one more formatting record to an alias (used by the
`self.suffix(alias)` call in `visit_Import`, which attaches a second
suffix record to the alias node after visiting it). -/
def addRec (a : AAlias) (r : PRec) : AAlias := ⟨a.name, a.asname, a.recs ++ [r]⟩

/-- The `module` parts list built by `visit_ImportFrom` for the
relative-import dots: a dot and a whitespace slot, repeated `level`
times. -/
def levelParts : Nat → List APart
| 0 => []
| n + 1 => APart.lit "." :: APart.wsp false :: levelParts n

/-- The `module` parts list built by `visit_ImportFrom` for a dotted
module name: `[ws, p1, '.', ws, p2, '.', ..., ws, plast]`. -/
def moduleNameParts (m : String) : List APart :=
  let ps := splitDots m
  (ps.dropLast.map (fun p => [APart.wsp false, APart.lit p, APart.lit "."])).flatten
    ++ [APart.wsp false, APart.lit (ps.getLastD "")]

/-- The whole `module_pattern` of `visit_ImportFrom` (the `if node.module:`
test uses Python truthiness, so an absent or empty module contributes
nothing). -/
def modulePattern (level : Nat) (module : Option String) : List APart :=
  levelParts level ++
    (match module with
     | some m => if m = "" then [] else moduleNameParts m
     | none => [])

/-- `'.' * level` (part of the default rendering of the module slot). -/
def dotsPre (level : Nat) : String := String.mk (List.replicate level '.')

/-- `str(node.n)` for the default rendering of a Num content slot. -/
def intStr (n : Int) : String := toString n

/-! ## The annotator

Embeds `AstAnnotator` driving the traversal order of `BaseVisitor`
(annotate.py).  The `spaced` and `parenthesizable` decorators both expand
to: a `prefix` record (`attr(node,'prefix',[self.ws])`), the visit body,
and a `suffix` record (`attr(node,'suffix',[lambda: self.ws(oneline=True)])`);
`parenthesizable` additionally wraps the visit in `self.scope(node)`,
whose parenthesis handling lives in the missing `token_generator.py` and
is not modelled (sources whose expressions carry extra parentheses simply
fail to annotate in this embedding).  The `is_elif` marker set by
`visit_If` on `node.orelse[0]` is passed down as the `isElif` flag and
recorded in the child's properties. -/

/-- `visit_alias` (annotate.py): `token(name)`, then for an aliased import
`attr(node, 'asname', [self.ws, 'as', self.ws])` and `token(asname)`,
inside the `spaced` prefix/suffix pair. -/
def annAlias (a : IAlias) (ts : TS) : Except AErr (AAlias × TS) :=
  let p1 := wsF false ts
  match tokenF a.name p1.2 with
  | .error e => .error e
  | .ok ts1 =>
    match a.asname with
    | none =>
      let p2 := wsF true ts1
      .ok (⟨a.name, a.asname, [⟨"prefix", p1.1⟩, ⟨"suffix", p2.1⟩]⟩, p2.2)
    | some asn =>
      match attrF "asname" [.wsp false, .lit "as", .wsp false] ts1 with
      | .error e => .error e
      | .ok (r, ts2) =>
        match tokenF asn ts2 with
        | .error e => .error e
        | .ok ts3 =>
          let p2 := wsF true ts3
          .ok (⟨a.name, a.asname, [⟨"prefix", p1.1⟩, r, ⟨"suffix", p2.1⟩]⟩, p2.2)

/-- The alias loop of `visit_Import` (annotate.py): visit each alias; for
every alias but the last, `suffix(alias)` (a second suffix record on the
alias) followed by `token(',')`. -/
def annAliasesI : List IAlias → TS → Except AErr (List AAlias × TS)
| [], ts => .ok ([], ts)
| [a], ts =>
  match annAlias a ts with
  | .error e => .error e
  | .ok (aa, ts1) => .ok ([aa], ts1)
| a :: a2 :: rest, ts =>
  match annAlias a ts with
  | .error e => .error e
  | .ok (aa, ts1) =>
    let p := wsF true ts1
    match tokenF "," p.2 with
    | .error e => .error e
    | .ok ts2 =>
      match annAliasesI (a2 :: rest) ts2 with
      | .error e => .error e
      | .ok (l, ts3) => .ok (addRec aa ⟨"suffix", p.1⟩ :: l, ts3)

/-- The alias loop of `visit_ImportFrom` (annotate.py): visit each alias;
for every alias but the last, `token(',')` directly (no extra suffix). -/
def annAliasesF : List IAlias → TS → Except AErr (List AAlias × TS)
| [], ts => .ok ([], ts)
| [a], ts =>
  match annAlias a ts with
  | .error e => .error e
  | .ok (aa, ts1) => .ok ([aa], ts1)
| a :: a2 :: rest, ts =>
  match annAlias a ts with
  | .error e => .error e
  | .ok (aa, ts1) =>
    match tokenF "," ts1 with
    | .error e => .error e
    | .ok ts2 =>
      match annAliasesF (a2 :: rest) ts2 with
      | .error e => .error e
      | .ok (l, ts3) => .ok (aa :: l, ts3)

mutual

/-- The annotation visit of one node (`AstAnnotator` over the traversal
order of `BaseVisitor.visit_*`); `isElif` is the `is_elif` marker set on
this node by its parent before the visit. -/
def annNode : Nat → Bool → Node → TS → Except AErr (ANode × TS)
| 0, _, _, _ => .error .fuelOut
| fuel + 1, isElif, n, ts =>
  match n with
  | .Module body =>
    -- visit_Module: generic_visit, then attr(node,'suffix',[self.ws]),
    -- inside the spaced prefix/suffix pair.
    let p1 := wsF false ts
    match annStmts fuel body p1.2 with
    | .error e => .error e
    | .ok (ab, ts1) =>
      let p2 := wsF false ts1
      let p3 := wsF true p2.2
      .ok (.Module ab [⟨"prefix", p1.1⟩, ⟨"suffix", p2.1⟩, ⟨"suffix", p3.1⟩], p3.2)
  | .ExprS v =>
    -- visit_Expr: visit(node.value), inside parenthesizable.
    let p1 := wsF false ts
    match annNode fuel false v p1.2 with
    | .error e => .error e
    | .ok (av, ts1) =>
      let p2 := wsF true ts1
      .ok (.ExprS av [⟨"prefix", p1.1⟩, ⟨"suffix", p2.1⟩], p2.2)
  | .NameE id =>
    -- visit_Name: token(node.id), inside parenthesizable.
    let p1 := wsF false ts
    match tokenF id p1.2 with
    | .error e => .error e
    | .ok ts1 =>
      let p2 := wsF true ts1
      .ok (.NameE id [⟨"prefix", p1.1⟩, ⟨"suffix", p2.1⟩], p2.2)
  | .NumE num =>
    -- AstAnnotator.visit_Num: attr(node, 'content',
    -- ['-' if n < 0] ++ [next_of_type(NUMBER)], deps=('n',)).
    let p1 := wsF false ts
    match attrF "content" (if num < 0 then [.lit "-", .numT] else [.numT]) p1.2 with
    | .error e => .error e
    | .ok (r, ts1) =>
      let p2 := wsF true ts1
      .ok (.NumE num [⟨"prefix", p1.1⟩, r, ⟨"suffix", p2.1⟩]
            [("n__src", .intV num)], p2.2)
  | .ImportS names =>
    -- visit_Import: token('import'), then the alias loop.
    let p1 := wsF false ts
    match tokenF "import" p1.2 with
    | .error e => .error e
    | .ok ts1 =>
      match annAliasesI names ts1 with
      | .error e => .error e
      | .ok (aal, ts2) =>
        let p2 := wsF true ts2
        .ok (.ImportS aal [⟨"prefix", p1.1⟩, ⟨"suffix", p2.1⟩], p2.2)
  | .ImportF module names level =>
    -- visit_ImportFrom: token('from'); attr 'module_prefix' [ws];
    -- attr 'module' module_pattern deps=('level','module');
    -- attr 'module_suffix' [ws]; token('import'); alias loop.
    let p1 := wsF false ts
    match tokenF "from" p1.2 with
    | .error e => .error e
    | .ok ts1 =>
      match attrF "module_prefix" [.wsp false] ts1 with
      | .error e => .error e
      | .ok (r1, ts2) =>
        match attrF "module" (modulePattern level module) ts2 with
        | .error e => .error e
        | .ok (r2, ts3) =>
          match attrF "module_suffix" [.wsp false] ts3 with
          | .error e => .error e
          | .ok (r3, ts4) =>
            match tokenF "import" ts4 with
            | .error e => .error e
            | .ok ts5 =>
              match annAliasesF names ts5 with
              | .error e => .error e
              | .ok (aal, ts6) =>
                let p2 := wsF true ts6
                .ok (.ImportF module aal level
                      [⟨"prefix", p1.1⟩, r1, r2, r3, ⟨"suffix", p2.1⟩]
                      [("level__src", .natV level), ("module__src", .optStrV module)],
                    p2.2)
  | .IfS test body orelse =>
    -- visit_If: token('elif' if is_elif else 'if'); visit(test);
    -- attr 'testsuffix' [ws, ':', ws]; body; orelse handling; suffix.
    let p1 := wsF false ts
    match tokenF (if isElif then "elif" else "if") p1.2 with
    | .error e => .error e
    | .ok ts1 =>
      match annNode fuel false test ts1 with
      | .error e => .error e
      | .ok (atst, ts2) =>
        match attrF "testsuffix" [.wsp false, .lit ":", .wsp false] ts2 with
        | .error e => .error e
        | .ok (r1, ts3) =>
          match annStmts fuel body ts3 with
          | .error e => .error e
          | .ok (ab, ts4) =>
            match annOrelse fuel orelse ts4 with
            | .error e => .error e
            | .ok (ors, aor, ts5) =>
              let p2 := wsF true ts5
              .ok (.IfS atst ab aor
                    ([⟨"prefix", p1.1⟩, r1] ++ ors ++ [⟨"suffix", p2.1⟩])
                    (if isElif then [("is_elif", .boolV true)] else []), p2.2)
  | .PassS =>
    -- visit_Pass: token('pass'), inside spaced.
    let p1 := wsF false ts
    match tokenF "pass" p1.2 with
    | .error e => .error e
    | .ok ts1 =>
      let p2 := wsF true ts1
      .ok (.PassS [⟨"prefix", p1.1⟩, ⟨"suffix", p2.1⟩], p2.2)
termination_by structural fuel => fuel

/-- The `if node.orelse:` block of `visit_If`: when the orelse is exactly
one `If` node, `check_is_elif` consults the next unconsumed NAME token
(`tokens.next_name()`, non-consuming); if it reads `elif`, the nested `If`
is marked `is_elif` and visited as a flat continuation (no `else` or `:`
tokens for the outer node); in every other case the `else` keyword, the
colon and the orelse statements are annotated as a nested block.  Returns
the records added to the outer node, the annotated orelse statements, and
the advanced stream. -/
def annOrelse : Nat → List Node → TS → Except AErr (List PRec × List ANode × TS)
| 0, _, _ => .error .fuelOut
| fuel + 1, orelse, ts =>
  match orelse with
  | [] => .ok ([], [], ts)
  | o1 :: orest =>
    if orest.isEmpty && isIfNode o1 then
      match nextNameText ts.toks with
      | none => .error .exhaustedStream
      | some w =>
        if w = "elif" then
          match annNode fuel true o1 ts with
          | .error e => .error e
          | .ok (ao, ts1) => .ok ([], [ao], ts1)
        else annOrelseElse fuel (o1 :: orest) ts
    else annOrelseElse fuel (o1 :: orest) ts
termination_by structural fuel => fuel

/-- The `else:` arm of the orelse handling in `visit_If`:
`attr 'elseprefix' [ws]`, `token('else')`, `attr 'elsesuffix'
[ws, ':', ws]`, then the orelse statements. -/
def annOrelseElse : Nat → List Node → TS → Except AErr (List PRec × List ANode × TS)
| 0, _, _ => .error .fuelOut
| fuel + 1, orelse, ts =>
  match attrF "elseprefix" [.wsp false] ts with
  | .error e => .error e
  | .ok (r1, ts1) =>
    match tokenF "else" ts1 with
    | .error e => .error e
    | .ok ts2 =>
      match attrF "elsesuffix" [.wsp false, .lit ":", .wsp false] ts2 with
      | .error e => .error e
      | .ok (r2, ts3) =>
        match annStmts fuel orelse ts3 with
        | .error e => .error e
        | .ok (aor, ts4) => .ok ([r1, r2], aor, ts4)
termination_by structural fuel => fuel

/-- Annotate a list of statements in order (the `for stmt in node.body`
loops of the visit methods). -/
def annStmts : Nat → List Node → TS → Except AErr (List ANode × TS)
| 0, _, _ => .error .fuelOut
| _ + 1, [], ts => .ok ([], ts)
| fuel + 1, n :: rest, ts =>
  match annNode fuel false n ts with
  | .error e => .error e
  | .ok (an, ts1) =>
    match annStmts fuel rest ts1 with
    | .error e => .error e
    | .ok (l, ts2) => .ok (an :: l, ts2)
termination_by structural fuel => fuel

end

/-! ## The code generator

`codegen.py` is not part of the available sources.  Modelled from the
spec (§4.4): the generator drives the same traversal order and, at each
slot, either replays the captured record verbatim — if a record is
present and its dependency snapshot still matches the node's current
field values — or emits the canonical default rendering for that slot
(the `default=` argument of the corresponding `attr` call, or the
concatenation of the literal parts when no default is declared); bare
`token(v)` calls emit `v`.  Because both passes make the same sequence of
`attr` calls, the records of a node are consumed positionally, in
traversal order; a consumed call returns the tail of the record list so
that the caller continues from there. -/

/-- Replay one `attr` slot: consume the next record of the node; emit its
captured text when the record is present, carries the expected slot name
and `ok` (the dependency-snapshot check computed by the caller from the
node's current field values) holds; emit the default otherwise. -/
def genAttrR (recs : List PRec) (key dflt : String) (ok : Bool) : String × List PRec :=
  match recs with
  | [] => (dflt, [])
  | r :: rest => (if ok && (r.key == key) then r.text else dflt, rest)

/-- Code generation for `visit_alias`: prefix, name token, optional
`asname` slot (default `' as '`), suffix.  Returns the emitted text and
the node's remaining records (a second suffix record may still be
consumed by `visit_Import`'s extra `suffix(alias)` call). -/
def genAlias (a : AAlias) : String × List PRec :=
  let p1 := genAttrR a.recs "prefix" "" true
  match a.asname with
  | none =>
    let p2 := genAttrR p1.2 "suffix" "" true
    (p1.1 ++ a.name ++ p2.1, p2.2)
  | some asn =>
    let pa := genAttrR p1.2 "asname" " as " true
    let p2 := genAttrR pa.2 "suffix" "" true
    (p1.1 ++ a.name ++ pa.1 ++ asn ++ p2.1, p2.2)

/-- Code generation for the alias loop of `visit_Import` (with the extra
suffix slot before each comma). -/
def genAliasesI : List AAlias → String
| [] => ""
| [a] => (genAlias a).1
| a :: a2 :: rest =>
  let p := genAlias a
  let s := genAttrR p.2 "suffix" "" true
  p.1 ++ s.1 ++ "," ++ genAliasesI (a2 :: rest)

/-- Code generation for the alias loop of `visit_ImportFrom`. -/
def genAliasesF : List AAlias → String
| [] => ""
| [a] => (genAlias a).1
| a :: a2 :: rest => (genAlias a).1 ++ "," ++ genAliasesF (a2 :: rest)

/-- The code generator's `check_is_elif`: replay the `is_elif` marker
stored on the node during annotation (spec §4.3: the transient marker is
set "so that the same choice is replayed identically during
regeneration"). -/
def genIsElifMarked : ANode → Bool
| .IfS _ _ _ _ deps => decide (lookupD deps "is_elif" = some (.boolV true))
| _ => false

mutual

/-- Code generation for one node: the same traversal as `annNode`,
replaying records positionally. -/
def genNode : ANode → String
| .Module ab recs =>
  let p1 := genAttrR recs "prefix" "" true
  let body := genStmts ab
  let p2 := genAttrR p1.2 "suffix" "" true
  let p3 := genAttrR p2.2 "suffix" "" true
  p1.1 ++ body ++ p2.1 ++ p3.1
| .ExprS av recs =>
  let p1 := genAttrR recs "prefix" "" true
  let p2 := genAttrR p1.2 "suffix" "" true
  p1.1 ++ genNode av ++ p2.1
| .NameE id recs =>
  let p1 := genAttrR recs "prefix" "" true
  let p2 := genAttrR p1.2 "suffix" "" true
  p1.1 ++ id ++ p2.1
| .NumE num recs deps =>
  let p1 := genAttrR recs "prefix" "" true
  let ok := decide (lookupD deps "n__src" = some (.intV num))
  let pc := genAttrR p1.2 "content" (intStr num) ok
  let p2 := genAttrR pc.2 "suffix" "" true
  p1.1 ++ pc.1 ++ p2.1
| .ImportS aal recs =>
  let p1 := genAttrR recs "prefix" "" true
  let p2 := genAttrR p1.2 "suffix" "" true
  p1.1 ++ "import" ++ genAliasesI aal ++ p2.1
| .ImportF module aal level recs deps =>
  let p1 := genAttrR recs "prefix" "" true
  let okm := decide (lookupD deps "level__src" = some (.natV level) ∧
                     lookupD deps "module__src" = some (.optStrV module))
  let r1 := genAttrR p1.2 "module_prefix" " " true
  let r2 := genAttrR r1.2 "module" (dotsPre level ++ module.getD "") okm
  let r3 := genAttrR r2.2 "module_suffix" " " true
  let p2 := genAttrR r3.2 "suffix" "" true
  p1.1 ++ "from" ++ r1.1 ++ r2.1 ++ r3.1 ++ "import" ++ genAliasesF aal ++ p2.1
| .IfS atst ab aor recs deps =>
  let p1 := genAttrR recs "prefix" "" true
  let kw := if lookupD deps "is_elif" = some (.boolV true) then "elif" else "if"
  let r1 := genAttrR p1.2 "testsuffix" ":" true
  let ore := genOrelseR aor r1.2
  let p2 := genAttrR ore.2 "suffix" "" true
  p1.1 ++ kw ++ genNode atst ++ r1.1 ++ genStmts ab ++ ore.1 ++ p2.1
| .PassS recs =>
  let p1 := genAttrR recs "prefix" "" true
  let p2 := genAttrR p1.2 "suffix" "" true
  p1.1 ++ "pass" ++ p2.1

/-- Code generation for the orelse arm of `visit_If`: replay the flat
`elif` continuation when the orelse is a single `If` carrying the
`is_elif` marker, otherwise the nested `else:` block (the statement loop
is unrolled one step to keep the recursion structural). -/
def genOrelseR : List ANode → List PRec → String × List PRec
| [], recs => ("", recs)
| o1 :: orest, recs =>
  if orest.isEmpty && genIsElifMarked o1 then (genNode o1, recs)
  else
    let e1 := genAttrR recs "elseprefix" "" true
    let e2 := genAttrR e1.2 "elsesuffix" ":" true
    (e1.1 ++ "else" ++ e2.1 ++ (genNode o1 ++ genStmts orest), e2.2)

/-- Code generation for a list of statements. -/
def genStmts : List ANode → String
| [] => ""
| a :: rest => genNode a ++ genStmts rest

end

/-- A programmatic edit of a `Num` node's value (`node.n = n'`), leaving
the formatting records and snapshots attached by annotation in place. -/
def setNumA (an : ANode) (n' : Int) : ANode :=
  match an with
  | .NumE _ recs deps => .NumE n' recs deps
  | x => x

/-! ## Scope analysis (`pasta/base/scope.py`)

Python `Name` objects are mutable and shared: the same object is
reachable from a scope's `names` table, from `RootScope._nodes_to_names`
and from another `Name`'s `attrs`.  The embedding therefore keeps all
`Name` objects in an indexed store (`List NameData`), and every table
holds store indices; index equality is Python object identity.  AST nodes
are identified by numeric ids (`nid`), unique in the input trees. -/

/-- The fields of a `Name` (scope.py): `id`, `definition` (the first
defining node), `reads` (later writer/reader nodes), `attrs` (nested
names for attribute resolution, by store index). -/
structure NameData where
  id : String
  definition : Option Nat
  reads : List Nat
  attrs : List (String × Nat)
deriving DecidableEq, Repr

/-- Lookup in an insertion-ordered association list (Python dict read). -/
def assocFind : List (String × Nat) → String → Option Nat
| [], _ => none
| (k, v) :: rest, key => if k = key then some v else assocFind rest key

/-- Python dict write `d[k] = v`: overwrite in place or append. -/
def assocSet : List (Nat × Nat) → Nat → Nat → List (Nat × Nat)
| [], k, v => [(k, v)]
| (k', v') :: rest, k, v =>
  if k' = k then (k', v) :: rest else (k', v') :: assocSet rest k v

/-- Dict write for the parent index (`RootScope.set_parent`). -/
def assocSetP : List (Nat × Option Nat) → Nat → Option Nat → List (Nat × Option Nat)
| [], k, v => [(k, v)]
| (k', v') :: rest, k, v =>
  if k' = k then (k', v) :: rest else (k', v') :: assocSetP rest k v

/-- Dict read for the parent index (`RootScope.parent`). -/
def assocFindP : List (Nat × Option Nat) → Nat → Option (Option Nat)
| [], _ => none
| (k, v) :: rest, key => if k = key then some v else assocFindP rest key

/-- Dict read for `_nodes_to_names` (`RootScope.get_name_for_node`). -/
def assocFindN : List (Nat × Nat) → Nat → Option Nat
| [], _ => none
| (k, v) :: rest, key => if k = key then some v else assocFindN rest key

/-- Read a `Name` from the store. -/
def storeGet (store : List NameData) (i : Nat) : NameData :=
  store.getD i ⟨"", none, [], []⟩

/-- Update a `Name` in the store (object mutation). -/
def storeUpd : List NameData → Nat → (NameData → NameData) → List NameData
| [], _, _ => []
| d :: rest, 0, f => f d :: rest
| d :: rest, i + 1, f => d :: storeUpd rest i f

/-- `Name.define` (scope.py): the first defining node becomes the
definition, later ones are appended to `reads`. -/
def defineF (nodeId : Nat) (d : NameData) : NameData :=
  match d.definition with
  | some _ => ⟨d.id, d.definition, d.reads ++ [nodeId], d.attrs⟩
  | none => ⟨d.id, some nodeId, d.reads, d.attrs⟩

/-- `Name.add_reference` (scope.py). -/
def addRefF (nodeId : Nat) (d : NameData) : NameData :=
  ⟨d.id, d.definition, d.reads ++ [nodeId], d.attrs⟩

/-- `Name.lookup_name` (scope.py): resolve an attribute name under a
`Name`, creating the nested `Name` on first use. -/
def nameLookupAttr (store : List NameData) (i : Nat) (name : String) :
    Nat × List NameData :=
  match assocFind (storeGet store i).attrs name with
  | some j => (j, store)
  | none =>
    let j := store.length
    let store1 := store ++ [⟨name, none, [], []⟩]
    (j, storeUpd store1 i (fun d => ⟨d.id, d.definition, d.reads, d.attrs ++ [(name, j)]⟩))

/-- `Scope.lookup_name` (scope.py, lines 145-153) over the scope chain
(head = current scope, last = root scope): return the `Name` from the
nearest scope that defines it; when no scope does — the root scope
included — create the `Name` in the root scope.  The empty-chain case is
unreachable (the visitor's chain always contains the root scope). -/
def lookupNameFrames : List (List (String × Nat)) → List NameData → String →
    Nat × List (List (String × Nat)) × List NameData
| [], store, x => (store.length, [], store ++ [⟨x, none, [], []⟩])
| [f], store, x =>
  match assocFind f x with
  | some i => (i, [f], store)
  | none =>
    let n := store.length
    (n, [f ++ [(x, n)]], store ++ [⟨x, none, [], []⟩])
| f :: g :: rest, store, x =>
  match assocFind f x with
  | some i => (i, f :: g :: rest, store)
  | none =>
    let r := lookupNameFrames (g :: rest) store x
    (r.1, f :: r.2.1, r.2.2)

/-- `names_to_add` of `RootScope.add_external_reference`: the full dotted
name followed by every proper dotted prefix. -/
def extPrefixes (name : String) : List String :=
  let parts := splitDots name
  name :: (List.range' 1 (parts.length - 1)).map
    (fun i => joinDots (parts.take i))

/-- Append a referencing node under one key of `external_references`. -/
def extAdd1 : List (String × List Nat) → String → Nat → List (String × List Nat)
| [], n, node => [(n, [node])]
| (k, l) :: rest, n, node =>
  if k = n then (k, l ++ [node]) :: rest else (k, l) :: extAdd1 rest n node

/-- `RootScope.add_external_reference` (scope.py, lines 167-177). -/
def addExternalReference (ext : List (String × List Nat)) (name : String)
    (node : Nat) (packages : Bool) : List (String × List Nat) :=
  (if packages then extPrefixes name else [name]).foldl
    (fun e n => extAdd1 e n node) ext

/-- Lookup in `external_references`. -/
def extLookup : List (String × List Nat) → String → Option (List Nat)
| [], _ => none
| (k, l) :: rest, key => if k = key then some l else extLookup rest key

/-- The visitor state: the `Name` store, the scope chain (head = current,
last = root), and the root scope's three tables. -/
structure ScState where
  store : List NameData
  frames : List (List (String × Nat))
  ext : List (String × List Nat)
  parents : List (Nat × Option Nat)
  nodeNames : List (Nat × Nat)
deriving DecidableEq, Repr

def withStore (st : ScState) (s : List NameData) : ScState :=
  ⟨s, st.frames, st.ext, st.parents, st.nodeNames⟩

def withFramesStore (st : ScState) (fr : List (List (String × Nat)))
    (s : List NameData) : ScState :=
  ⟨s, fr, st.ext, st.parents, st.nodeNames⟩

def withExt (st : ScState) (e : List (String × List Nat)) : ScState :=
  ⟨st.store, st.frames, e, st.parents, st.nodeNames⟩

def withParents (st : ScState) (p : List (Nat × Option Nat)) : ScState :=
  ⟨st.store, st.frames, st.ext, p, st.nodeNames⟩

def withNodeNames (st : ScState) (m : List (Nat × Nat)) : ScState :=
  ⟨st.store, st.frames, st.ext, st.parents, m⟩

/-- `Scope.define_name` (scope.py, lines 137-143) on the current scope
(the head frame): reuse the scope's `Name` or create it, then
`Name.define(node)`. -/
def defineName (st : ScState) (name : String) (nodeId : Nat) : Nat × ScState :=
  match st.frames with
  | [] => (0, st)
  | f :: rest =>
    match assocFind f name with
    | some i => (i, withStore st (storeUpd st.store i (defineF nodeId)))
    | none =>
      let i := st.store.length
      let store1 := st.store ++ [⟨name, none, [], []⟩]
      (i, withFramesStore st ((f ++ [(name, i)]) :: rest)
            (storeUpd store1 i (defineF nodeId)))

/-- `Scope.lookup_name` on the visitor state. -/
def lookupName (st : ScState) (name : String) : Nat × ScState :=
  let r := lookupNameFrames st.frames st.store name
  (r.1, withFramesStore st r.2.1 r.2.2)

/-- Push a new scope (`self.scope = Scope(self.scope)`). -/
def pushScope (st : ScState) : ScState :=
  ⟨st.store, [] :: st.frames, st.ext, st.parents, st.nodeNames⟩

/-- Pop back to the parent scope (`self.scope = self.scope.parent_scope`). -/
def popScope (st : ScState) : ScState :=
  ⟨st.store, st.frames.tail, st.ext, st.parents, st.nodeNames⟩

/-- An `ast.alias` node as seen by the scope pass: its identity `aid`,
its dotted `name` and its optional `asname`. -/
structure SAlias where
  aid : Nat
  name : String
  asname : Option String
deriving DecidableEq, Repr

/-- Expression contexts of `ast.Name` distinguished by `visit_Name`. -/
inductive Ctx where
| Load
| Store
| Param
deriving DecidableEq, Repr

/-- The AST fragment traversed by the scope pass, with explicit node ids.
`Arguments` models the `ast.arguments` object held by a function's `args`
field (only its `args` list is populated in this fragment). -/
inductive SNode where
| Module (nid : Nat) (body : List SNode)
| Assign (nid : Nat) (targets : List SNode) (value : SNode)
| FunctionDef (nid : Nat) (name : String) (args : SNode) (body : List SNode)
| Arguments (nid : Nat) (args : List SNode)
| Arg (nid : Nat) (arg : String)
| NameS (nid : Nat) (id : String) (ctx : Ctx)
| ImportSt (nid : Nat) (names : List SAlias)
| ExprSt (nid : Nat) (value : SNode)
| NumSt (nid : Nat) (n : Int)
deriving Repr

/-- The id of a scope-AST node. -/
def SNode.nidOf : SNode → Nat
| .Module nid _ => nid
| .Assign nid _ _ => nid
| .FunctionDef nid _ _ _ => nid
| .Arguments nid _ => nid
| .Arg nid _ => nid
| .NameS nid _ _ => nid
| .ImportSt nid _ => nid
| .ExprSt nid _ => nid
| .NumSt nid _ => nid

/-- The per-alias body of `ScopeVisitor.visit_Import` (scope.py, lines
55-72): register the external reference under the dotted name and all its
prefixes; for a plain import define the top-level module name in the
current scope and each dotted sub-name as a nested `Name`, defining each
with the alias node; for an aliased import define only the alias name. -/
def doImportAlias (st : ScState) (a : SAlias) : ScState :=
  let parts := splitDots a.name
  let st1 := withExt st (addExternalReference st.ext a.name a.aid true)
  match a.asname with
  | none =>
    let r := defineName st1 (parts.headD "") a.aid
    let f := parts.tail.foldl
      (fun (acc : Nat × ScState) part =>
        let rr := nameLookupAttr acc.2.store acc.1 part
        (rr.1, withStore acc.2 (storeUpd rr.2 rr.1 (defineF a.aid))))
      r
    f.2
  | some asn => (defineName st1 asn a.aid).2

mutual

/-- `ScopeVisitor.visit` plus the per-kind visit methods (scope.py):
record the node's parent, then dispatch.  Nodes without a dedicated visit
method (`Module`, `Assign`, `Expr`, `Num`) take `generic_visit`, which
visits the child nodes in field order. -/
def svNode : Nat → Option Nat → SNode → ScState → ScState
| 0, _, _, st => st
| fuel + 1, parentId, n, st =>
  let st := withParents st (assocSetP st.parents n.nidOf parentId)
  match n with
  | .Module nid body => svList fuel (some nid) body st
  | .Assign nid targets value =>
    let st1 := svList fuel (some nid) targets st
    svNode fuel (some nid) value st1
  | .FunctionDef nid name args body =>
    -- visit_FunctionDef: define_name(node.name, node); push a scope;
    -- visit decorator_list (absent here), args, returns (absent), body;
    -- finally pop the scope.
    let st1 := (defineName st name nid).2
    let st2 := pushScope st1
    let st3 := svNode fuel (some nid) args st2
    let st4 := svList fuel (some nid) body st3
    popScope st4
  | .Arguments nid args =>
    -- visit_arguments: defaults (absent here) then args, vararg, kwarg.
    svList fuel (some nid) args st
  | .Arg nid arg =>
    -- visit_arg: define_name(node.arg, node).
    (defineName st arg nid).2
  | .NameS nid id ctx =>
    -- visit_Name: Store/Param define; Load looks up (adding a read
    -- reference) and records the resolved Name for the node (the lookup
    -- is performed twice, as in the source).
    match ctx with
    | .Store => (defineName st id nid).2
    | .Param => (defineName st id nid).2
    | .Load =>
      let r1 := lookupName st id
      let st2 := withStore r1.2 (storeUpd r1.2.store r1.1 (addRefF nid))
      let r2 := lookupName st2 id
      withNodeNames r2.2 (assocSet r2.2.nodeNames nid r2.1)
  | .ImportSt nid names =>
    -- visit_Import: the alias loop, then generic_visit (which visits the
    -- alias child nodes, recording their parents).
    let st1 := names.foldl doImportAlias st
    withParents st1 (names.foldl (fun p a => assocSetP p a.aid (some nid)) st1.parents)
  | .ExprSt nid value => svNode fuel (some nid) value st
  | .NumSt _ _ => st
termination_by structural fuel => fuel

/-- Visit a list of child nodes in order. -/
def svList : Nat → Option Nat → List SNode → ScState → ScState
| 0, _, _, st => st
| _ + 1, _, [], st => st
| fuel + 1, parentId, n :: rest, st =>
  svList fuel parentId rest (svNode fuel parentId n st)
termination_by structural fuel => fuel

end

/-- `scope.analyze(tree)`: run the visitor from a fresh `RootScope`
(empty store, the chain holding just the root frame, empty tables). -/
def analyze (fuel : Nat) (tree : SNode) : ScState :=
  svNode fuel none tree ⟨[], [[]], [], [], []⟩

/-! ## Import splitting (`pasta/augment/import_utils.py`)

`split_import(sc, node, alias_to_remove)` mutates the tree in place.  The
embedding takes the parent node (obtained by the caller from the scope's
node-to-parent index, `sc.parent(node)`) and returns, next to the result,
the list of mutations the Python function performs, in program order; an
interpreter `applyEffects` realises those mutations on the parent's
subtree.  Node identity is the numeric `nid` (ids are unique in the
trees considered), and alias identity is `aid`. -/

structure Alias2 where
  aid : Nat
  name : String
  asname : Option String
deriving DecidableEq, Repr

/-- The statement kind of an import node (`copy.deepcopy` preserves it,
so the split produces a node of the same kind). -/
inductive NKind where
| importK
| importFromK
| otherK
deriving DecidableEq, Repr

/-- A statement node as seen by `split_import`: candidate child lists are
optional, mirroring `hasattr(parent, a)` for `'body'`, `'orelse'` and
`'finalbody'`. -/
inductive Node2 where
| mk (nid : Nat) (kind : NKind) (body orelse finalbody : Option (List Node2))
    (names : List Alias2)

def Node2.nid : Node2 → Nat
| .mk nid _ _ _ _ _ => nid

def Node2.kind : Node2 → NKind
| .mk _ kind _ _ _ _ => kind

def Node2.names : Node2 → List Alias2
| .mk _ _ _ _ _ names => names

/-- The candidate child-list attributes tried by `split_import`, in the
source's order `('body', 'orelse', 'finalbody')`. -/
inductive LAttr where
| bodyA
| orelseA
| finalA
deriving DecidableEq, Repr

/-- `getattr(parent, a)` for the three candidate attributes. -/
def getL : Node2 → LAttr → Option (List Node2)
| .mk _ _ body _ _ _, .bodyA => body
| .mk _ _ _ orelse _ _, .orelseA => orelse
| .mk _ _ _ _ finalbody _, .finalA => finalbody

/-- `node in getattr(parent, a)` (membership by object identity). -/
def containsNid (l : List Node2) (i : Nat) : Bool :=
  l.any (fun c => c.nid == i)

/-- One step of the `for a in ('body','orelse','finalbody')` loop. -/
def tryAttr (parent : Node2) (a : LAttr) (i : Nat) : Option (LAttr × List Node2) :=
  match getL parent a with
  | some l => if containsNid l i then some (a, l) else none
  | none => none

/-- The `for ... else` lookup of `split_import` (lines 40-47): the first
candidate attribute that exists on the parent and contains the node. -/
def locateList (parent : Node2) (i : Nat) : Option (LAttr × List Node2) :=
  match tryAttr parent .bodyA i with
  | some r => some r
  | none =>
    match tryAttr parent .orelseA i with
    | some r => some r
    | none => tryAttr parent .finalA i

/-- `parent_list.index(node)` (first index, by identity). -/
def idxOfNid : List Node2 → Nat → Nat
| [], _ => 0
| c :: rest, i => if c.nid = i then 0 else idxOfNid rest i + 1

/-- `node.names.remove(alias)`: remove the first occurrence (by
identity).  Python raises `ValueError` when the alias is absent; that
case is outside every claim's hypotheses and is modelled as a no-op. -/
def pyRemoveAlias : List Alias2 → Nat → List Alias2
| [], _ => []
| a :: rest, aid => if a.aid = aid then rest else a :: pyRemoveAlias rest aid

/-- `list.insert(idx, x)` with Python semantics (append when the index is
past the end). -/
def pyInsert (idx : Nat) (x : Node2) (l : List Node2) : List Node2 :=
  l.take idx ++ x :: l.drop idx

def setNames (n : Node2) (names : List Alias2) : Node2 :=
  match n with
  | .mk nid kind body orelse finalbody _ => .mk nid kind body orelse finalbody names

/-- The fresh object identity produced by `copy.deepcopy` (an import node
has no further child nodes, so only its own identity changes). -/
def setNid (n : Node2) (i : Nat) : Node2 :=
  match n with
  | .mk _ kind body orelse finalbody names => .mk i kind body orelse finalbody names

/-- `errors.InvalidAstError` (the spec's StructuralLookupError). -/
inductive AugErr where
| invalidAstError
deriving DecidableEq, Repr

/-- The mutations performed by `split_import`, in program order:
`node.names.remove(alias_to_remove)` and
`parent_list.insert(idx + 1, new_import)`. -/
inductive Effect where
| removeAlias (nid aid : Nat)
| insertChild (pid : Nat) (attr : LAttr) (idx : Nat) (newNode : Node2)

/-- Apply one candidate-list update to a parent node. -/
def updLists (f : LAttr → Option (List Node2) → Option (List Node2)) :
    Node2 → Node2
| .mk nid kind body orelse finalbody names =>
  .mk nid kind (f .bodyA body) (f .orelseA orelse) (f .finalA finalbody) names

/-- Realise one mutation on the parent node's subtree: removing an alias
mutates the identified node (the parent itself or a direct child in one
of its lists); the insertion extends the identified list of the parent. -/
def applyEffect (e : Effect) (p : Node2) : Node2 :=
  match e with
  | .removeAlias tid aid =>
    let p1 := if p.nid = tid then setNames p (pyRemoveAlias p.names aid) else p
    updLists (fun _ l => l.map (fun xs => xs.map
      (fun c => if c.nid = tid then setNames c (pyRemoveAlias c.names aid) else c))) p1
  | .insertChild pid a idx nn =>
    if p.nid = pid then
      updLists (fun a' l => if a' = a then l.map (pyInsert idx nn) else l) p
    else p

/-- Apply the mutations in order. -/
def applyEffects (effs : List Effect) (p : Node2) : Node2 :=
  effs.foldl (fun acc e => applyEffect e acc) p

/-- `split_import` (import_utils.py, lines 26-55): locate the list
containing `node` among the parent's `body`/`orelse`/`finalbody`,
failing with `InvalidAstError` when none contains it; otherwise deep-copy
the node, set the copy's `names` to exactly `[alias_to_remove]`, remove
the alias from the original node, insert the copy immediately after the
original node in the containing list, and return the copy.  The first
component lists the mutations performed, in program order (empty on the
error path: the error is raised before any mutation). -/
def split_import (parent node : Node2) (aliasToRemove : Alias2) (freshId : Nat) :
    List Effect × Except AugErr Node2 :=
  match locateList parent node.nid with
  | none => ([], .error .invalidAstError)
  | some (a, l) =>
    let idx := idxOfNid l node.nid
    let newImport := setNid (setNames node [aliasToRemove]) freshId
    ([.removeAlias node.nid aliasToRemove.aid,
      .insertChild parent.nid a (idx + 1) newImport],
     .ok newImport)

/-! ## Statement-level helpers for the claims -/

/-- The text of the `i`-th formatting record of an annotated node. -/
def recTextAt (an : ANode) (i : Nat) : String :=
  ((an.recsOf.get? i).map PRec.text).getD ""

/-- The concrete input of the scope-shadowing claim: a module that
defines `x` at module scope (`x = 0`), re-defines `x` as a parameter of
`def f(x): x`, and reads `x` again at module scope.  Node ids annotate
the syntactic positions. -/
def shadowTree : SNode :=
  .Module 0 [
    .Assign 1 [.NameS 2 "x" .Store] (.NumSt 3 0),
    .FunctionDef 4 "f" (.Arguments 5 [.Arg 6 "x"]) [.ExprSt 7 (.NameS 8 "x" .Load)],
    .ExprSt 9 (.NameS 10 "x" .Load)]

/-- The concrete input of the external-reference claim: the module
`import aaa.bbb` (node 1 is the `ast.Import` statement, node 2 its
`ast.alias` child). -/
def importTree : SNode := .Module 0 [.ImportSt 1 [⟨2, "aaa.bbb", none⟩]]

/-- The update performed on a scope chain when `lookup_name` falls through
to the root scope: the last frame (the root) gains the new binding. -/
def updateRoot : List (List (String × Nat)) → String → Nat →
    List (List (String × Nat))
| [], _, _ => []
| [f], x, n => [f ++ [(x, n)]]
| f :: g :: rest, x, n => f :: updateRoot (g :: rest) x n

/-- A concrete token stream for the round-trip witness:
`import aaa, bbb\n`. -/
def c1toks : List Tok :=
  [.tk .nameK "import", .wst " " false, .tk .nameK "aaa", .tk .opK ",",
   .wst " " false, .tk .nameK "bbb", .wst "\n" true]

/-- The parse tree of `import aaa, bbb` in the annotation fragment. -/
def c1tree : Node := .Module [.ImportS [⟨"aaa", none⟩, ⟨"bbb", none⟩]]

/-- The annotation of `c1tree` against `c1toks`. -/
def c1an : ANode :=
  .Module
    [.ImportS
      [⟨"aaa", none, [⟨"prefix", " "⟩, ⟨"suffix", ""⟩, ⟨"suffix", ""⟩]⟩,
       ⟨"bbb", none, [⟨"prefix", " "⟩, ⟨"suffix", ""⟩]⟩]
      [⟨"prefix", ""⟩, ⟨"suffix", ""⟩]]
    [⟨"prefix", ""⟩, ⟨"suffix", "\n"⟩, ⟨"suffix", ""⟩]

/-- A concrete stream positioned at the orelse decision point of an `If`,
continuing with `elif y: pass`. -/
def c9ts : TS :=
  ⟨[.tk .nameK "elif", .wst " " false, .tk .nameK "y", .tk .opK ":",
    .wst " " false, .tk .nameK "pass", .wst "\n" true], 0⟩

/-- The annotation of the nested `If` of the `c9ts` stream, marked as a
flat `elif` continuation. -/
def c9an : ANode :=
  .IfS (.NameE "y" [⟨"prefix", " "⟩, ⟨"suffix", ""⟩])
    [.PassS [⟨"prefix", ""⟩, ⟨"suffix", ""⟩]]
    []
    [⟨"prefix", ""⟩, ⟨"testsuffix", ": "⟩, ⟨"suffix", ""⟩]
    [("is_elif", .boolV true)]

/-- The annotation of the literal `0x5` against a `Num` node with value
`5`. -/
def c8an : ANode :=
  .NumE 5 [⟨"prefix", ""⟩, ⟨"content", "0x5"⟩, ⟨"suffix", ""⟩]
    [("n__src", .intV 5)]

/-- A parent statement holding one import in its `body` list (used by
the witnesses of the import-splitting claims). -/
def c2node : Node2 :=
  .mk 1 .importK none none none [⟨10, "aaa", none⟩, ⟨11, "bbb", none⟩, ⟨12, "ccc", none⟩]

def c2parent : Node2 := .mk 0 .otherK (some [c2node]) none none []

/-- A parent without any of the three candidate child lists (for the
lookup-failure witnesses). -/
def c7parent : Node2 := .mk 0 .otherK none none none []

/-! # Theorems -/

/-! ## Source-preservation of the token-stream primitives -/

theorem wsRun_src (o : Bool) (d : Nat) (l : List Tok) :
    (wsRun o d l).1 ++ sourceText (wsRun o d l).2 = sourceText l := by
  induction l with
  | nil => simp [wsRun, sourceText]
  | cons t rest ih =>
    cases t with
    | wst s nl =>
      simp only [wsRun]
      split
      · simp
      · simpa [sourceText, Tok.text, String.append_assoc] using
          congrArg (fun z => s ++ z) ih
    | tk k s => simp [wsRun, sourceText]

theorem wsF_src (o : Bool) (ts : TS) :
    (wsF o ts).1 ++ sourceText (wsF o ts).2.toks = sourceText ts.toks := by
  simpa [wsF] using wsRun_src o ts.parens ts.toks

theorem wsF_parens (o : Bool) (ts : TS) : (wsF o ts).2.parens = ts.parens := rfl

theorem tokenF_src (v : String) (ts ts' : TS) (h : tokenF v ts = .ok ts') :
    v ++ sourceText ts'.toks = sourceText ts.toks := by
  obtain ⟨toks, parens⟩ := ts
  cases toks with
  | nil => simp [tokenF] at h
  | cons t rest =>
    simp only [tokenF] at h
    split at h
    next he =>
      split at h
      · cases h; simp [sourceText, hintOpen, he]
      · split at h
        · cases h; simp [sourceText, hintClosed, he]
        · cases h; simp [sourceText, he]
    next he => cases h

theorem nextNumF_src (ts : TS) (s : String) (ts' : TS)
    (h : nextNumF ts = .ok (s, ts')) :
    s ++ sourceText ts'.toks = sourceText ts.toks := by
  unfold nextNumF at h
  cases hts : ts.toks with
  | nil => rw [hts] at h; cases h
  | cons t rest =>
    rw [hts] at h
    cases t with
    | wst a b => cases h
    | tk k a =>
      cases k with
      | nameK => cases h
      | numberK =>
        cases h
        simp [sourceText, Tok.text]
      | opK => cases h

theorem runParts_src (ps : List APart) (ts : TS) (s : String) (ts' : TS)
    (h : runParts ps ts = .ok (s, ts')) :
    s ++ sourceText ts'.toks = sourceText ts.toks := by
  induction ps generalizing ts s with
  | nil =>
    simp only [runParts, Except.ok.injEq, Prod.mk.injEq] at h
    obtain ⟨rfl, rfl⟩ := h
    exact String.empty_append _
  | cons p rest ih =>
    cases p with
    | lit v =>
      simp only [runParts] at h
      split at h
      next => cases h
      next ts1 heq =>
        split at h
        next => cases h
        next s2 ts2 heq2 =>
          simp only [Except.ok.injEq, Prod.mk.injEq] at h
          obtain ⟨rfl, rfl⟩ := h
          rw [String.append_assoc, ih ts1 s2 heq2, tokenF_src v ts ts1 heq]
    | wsp o =>
      simp only [runParts] at h
      split at h
      next => cases h
      next s2 ts2 heq2 =>
        simp only [Except.ok.injEq, Prod.mk.injEq] at h
        obtain ⟨rfl, rfl⟩ := h
        rw [String.append_assoc, ih _ s2 heq2, wsF_src o ts]
    | numT =>
      simp only [runParts] at h
      split at h
      next => cases h
      next s0 ts1 heq =>
        split at h
        next => cases h
        next s2 ts2 heq2 =>
          simp only [Except.ok.injEq, Prod.mk.injEq] at h
          obtain ⟨rfl, rfl⟩ := h
          rw [String.append_assoc, ih ts1 s2 heq2, nextNumF_src ts s0 ts1 heq]

theorem attrF_src (key : String) (ps : List APart) (ts : TS) (r : PRec) (ts' : TS)
    (h : attrF key ps ts = .ok (r, ts')) :
    r.key = key ∧ r.text ++ sourceText ts'.toks = sourceText ts.toks := by
  unfold attrF at h
  split at h
  next => cases h
  next s ts1 heq =>
    simp only [Except.ok.injEq, Prod.mk.injEq] at h
    obtain ⟨rfl, rfl⟩ := h
    exact ⟨rfl, runParts_src ps ts s _ heq⟩

/-! ## Replay lemmas for the generator -/

theorem genAttrR_hit (key txt dflt : String) (rest : List PRec) :
    genAttrR (⟨key, txt⟩ :: rest) key dflt true = (txt, rest) := by
  simp [genAttrR]

/-- Composition of two source-preservation steps: if `A` accounts for the
tokens between `x` and `y` and `B` for those between `y` and `z`, then
`A ++ B` accounts for the tokens between `x` and `z`. -/
theorem srcStep {A B : String} {x y z : List Tok}
    (h1 : A ++ sourceText y = sourceText x)
    (h2 : B ++ sourceText z = sourceText y) :
    (A ++ B) ++ sourceText z = sourceText x := by
  rw [String.append_assoc, h2, h1]

/-! ## Round trip for aliases -/

theorem annAlias_gen (a : IAlias) (ts : TS) (aa : AAlias) (ts' : TS)
    (h : annAlias a ts = .ok (aa, ts')) :
    (∀ extra, genAlias ⟨aa.name, aa.asname, aa.recs ++ extra⟩ =
      ((genAlias aa).1, extra)) ∧
    (genAlias aa).1 ++ sourceText ts'.toks = sourceText ts.toks := by
  simp only [annAlias] at h
  split at h
  next => cases h
  next ts1 heq1 =>
    split at h
    next hn =>
      -- no asname
      simp only [Except.ok.injEq, Prod.mk.injEq] at h
      obtain ⟨rfl, rfl⟩ := h
      constructor
      · intro extra
        simp [genAlias, genAttrR, hn]
      · simp only [genAlias, hn, genAttrR_hit]
        exact srcStep (srcStep (wsF_src false ts) (tokenF_src a.name _ _ heq1))
          (wsF_src true ts1)
    next asn hn =>
      -- asname present
      split at h
      next => cases h
      next r ts2 heq2 =>
        split at h
        next => cases h
        next ts3 heq3 =>
          simp only [Except.ok.injEq, Prod.mk.injEq] at h
          obtain ⟨rfl, rfl⟩ := h
          obtain ⟨rk, rtext⟩ := r
          obtain ⟨hk, hsrc⟩ := attrF_src _ _ _ _ _ heq2
          simp only at hk
          subst hk
          constructor
          · intro extra
            simp [genAlias, genAttrR, hn]
          · simp only [genAlias, hn, genAttrR_hit]
            exact srcStep (srcStep (srcStep (srcStep (wsF_src false ts)
              (tokenF_src a.name _ _ heq1)) hsrc) (tokenF_src asn _ _ heq3))
              (wsF_src true ts3)

theorem annAliasesI_len (l : List IAlias) (ts : TS) (aal : List AAlias) (ts' : TS)
    (h : annAliasesI l ts = .ok (aal, ts')) : aal.length = l.length := by
  induction l generalizing ts aal ts' with
  | nil => simp only [annAliasesI, Except.ok.injEq, Prod.mk.injEq] at h; simp [← h.1]
  | cons a rest ih =>
    cases rest with
    | nil =>
      simp only [annAliasesI] at h
      split at h
      next => cases h
      next aa ts1 heq =>
        simp only [Except.ok.injEq, Prod.mk.injEq] at h
        simp [← h.1]
    | cons a2 rest2 =>
      simp only [annAliasesI] at h
      split at h
      next => cases h
      next aa ts1 heq =>
        split at h
        next => cases h
        next ts2 heq2 =>
          split at h
          next => cases h
          next l2 ts3 heq3 =>
            simp only [Except.ok.injEq, Prod.mk.injEq] at h
            obtain ⟨h1, -⟩ := h
            subst h1
            simp [ih _ _ _ heq3]

theorem annAliasesI_gen (l : List IAlias) (ts : TS) (aal : List AAlias) (ts' : TS)
    (h : annAliasesI l ts = .ok (aal, ts')) :
    genAliasesI aal ++ sourceText ts'.toks = sourceText ts.toks := by
  induction l generalizing ts aal ts' with
  | nil =>
    simp only [annAliasesI, Except.ok.injEq, Prod.mk.injEq] at h
    obtain ⟨rfl, rfl⟩ := h
    simp [genAliasesI]
  | cons a rest ih =>
    cases rest with
    | nil =>
      simp only [annAliasesI] at h
      split at h
      next => cases h
      next aa ts1 heq =>
        simp only [Except.ok.injEq, Prod.mk.injEq] at h
        obtain ⟨rfl, rfl⟩ := h
        simpa [genAliasesI] using (annAlias_gen a ts aa _ heq).2
    | cons a2 rest2 =>
      simp only [annAliasesI] at h
      split at h
      next => cases h
      next aa ts1 heq =>
        split at h
        next => cases h
        next ts2 heq2 =>
          split at h
          next => cases h
          next l2 ts3 heq3 =>
            simp only [Except.ok.injEq, Prod.mk.injEq] at h
            obtain ⟨h1, rfl⟩ := h
            subst h1
            have hlen := annAliasesI_len _ _ _ _ heq3
            obtain ⟨hgen, hsrc⟩ := annAlias_gen a ts aa ts1 heq
            have hx : genAlias (addRec aa ⟨"suffix", (wsF true ts1).1⟩) =
                ((genAlias aa).1, [⟨"suffix", (wsF true ts1).1⟩]) := by
              simpa [addRec] using hgen [⟨"suffix", (wsF true ts1).1⟩]
            match l2, hlen, heq3 with
            | b :: l2', _, heq3 =>
              simp only [genAliasesI, hx, genAttrR_hit]
              exact srcStep (srcStep (srcStep hsrc (wsF_src true ts1))
                (tokenF_src "," _ _ heq2)) (ih _ _ _ heq3)

theorem annAliasesF_len (l : List IAlias) (ts : TS) (aal : List AAlias) (ts' : TS)
    (h : annAliasesF l ts = .ok (aal, ts')) : aal.length = l.length := by
  induction l generalizing ts aal ts' with
  | nil => simp only [annAliasesF, Except.ok.injEq, Prod.mk.injEq] at h; simp [← h.1]
  | cons a rest ih =>
    cases rest with
    | nil =>
      simp only [annAliasesF] at h
      split at h
      next => cases h
      next aa ts1 heq =>
        simp only [Except.ok.injEq, Prod.mk.injEq] at h
        simp [← h.1]
    | cons a2 rest2 =>
      simp only [annAliasesF] at h
      split at h
      next => cases h
      next aa ts1 heq =>
        split at h
        next => cases h
        next ts2 heq2 =>
          split at h
          next => cases h
          next l2 ts3 heq3 =>
            simp only [Except.ok.injEq, Prod.mk.injEq] at h
            obtain ⟨h1, -⟩ := h
            subst h1
            simp [ih _ _ _ heq3]

theorem annAliasesF_gen (l : List IAlias) (ts : TS) (aal : List AAlias) (ts' : TS)
    (h : annAliasesF l ts = .ok (aal, ts')) :
    genAliasesF aal ++ sourceText ts'.toks = sourceText ts.toks := by
  induction l generalizing ts aal ts' with
  | nil =>
    simp only [annAliasesF, Except.ok.injEq, Prod.mk.injEq] at h
    obtain ⟨rfl, rfl⟩ := h
    simp [genAliasesF]
  | cons a rest ih =>
    cases rest with
    | nil =>
      simp only [annAliasesF] at h
      split at h
      next => cases h
      next aa ts1 heq =>
        simp only [Except.ok.injEq, Prod.mk.injEq] at h
        obtain ⟨rfl, rfl⟩ := h
        simpa [genAliasesF] using (annAlias_gen a ts aa _ heq).2
    | cons a2 rest2 =>
      simp only [annAliasesF] at h
      split at h
      next => cases h
      next aa ts1 heq =>
        split at h
        next => cases h
        next ts2 heq2 =>
          split at h
          next => cases h
          next l2 ts3 heq3 =>
            simp only [Except.ok.injEq, Prod.mk.injEq] at h
            obtain ⟨h1, rfl⟩ := h
            subst h1
            have hlen := annAliasesF_len _ _ _ _ heq3
            match l2, hlen, heq3 with
            | b :: l2', _, heq3 =>
              simp only [genAliasesF]
              exact srcStep (srcStep (annAlias_gen a ts aa ts1 heq).2
                (tokenF_src "," _ _ heq2)) (ih _ _ _ heq3)

/-! ## The round-trip induction

One induction over the fuel establishes, for all four mutually recursive
annotation functions at once: regenerating an unmodified annotated tree
reproduces exactly the source text the annotation consumed, the `is_elif`
marker is set on a node iff its visit was entered as a flat `elif`
continuation, and annotating a statement list preserves its length. -/

/-- The two `is_elif`-marker side conditions, for node kinds other than
`If`. -/
theorem markSide {b : Bool} {n : Node} {an : ANode}
    (h1 : isIfNode n = false) (h2 : genIsElifMarked an = false) :
    (b = true → isIfNode n = true → genIsElifMarked an = true) ∧
    (b = false → genIsElifMarked an = false) :=
  ⟨fun _ hx => absurd hx (by simp [h1]), fun _ => h2⟩

theorem rtAll : ∀ fuel : Nat,
    (∀ b n ts an ts', annNode fuel b n ts = .ok (an, ts') →
       (genNode an ++ sourceText ts'.toks = sourceText ts.toks) ∧
       (b = true → isIfNode n = true → genIsElifMarked an = true) ∧
       (b = false → genIsElifMarked an = false)) ∧
    (∀ l ts al ts', annStmts fuel l ts = .ok (al, ts') →
       (genStmts al ++ sourceText ts'.toks = sourceText ts.toks) ∧
       al.length = l.length ∧
       (∀ x ∈ al, genIsElifMarked x = false)) ∧
    (∀ o ts ors aor ts', annOrelse fuel o ts = .ok (ors, aor, ts') →
       ∀ rest, (genOrelseR aor (ors ++ rest)).2 = rest ∧
         (genOrelseR aor (ors ++ rest)).1 ++ sourceText ts'.toks = sourceText ts.toks) ∧
    (∀ o1 orest ts ors aor ts', annOrelseElse fuel (o1 :: orest) ts = .ok (ors, aor, ts') →
       ∀ rest, (genOrelseR aor (ors ++ rest)).2 = rest ∧
         (genOrelseR aor (ors ++ rest)).1 ++ sourceText ts'.toks = sourceText ts.toks) := by
  intro fuel
  induction fuel with
  | zero =>
    refine ⟨?_, ?_, ?_, ?_⟩
    · intro b n ts an ts' h; simp [annNode] at h
    · intro l ts al ts' h; simp [annStmts] at h
    · intro o ts ors aor ts' h; simp [annOrelse] at h
    · intro o1 orest ts ors aor ts' h; simp [annOrelseElse] at h
  | succ fuel ih =>
    obtain ⟨ihN, ihS, ihO, ihE⟩ := ih
    refine ⟨?_, ?_, ?_, ?_⟩
    · -- annNode
      intro b n ts an ts' h
      cases n with
      | Module body =>
        simp only [annNode] at h
        split at h
        next => cases h
        next ab ts1 heq =>
          simp only [Except.ok.injEq, Prod.mk.injEq] at h
          obtain ⟨h1, h2⟩ := h
          subst h1; subst h2
          refine ⟨?_, markSide rfl rfl⟩
          simp only [genNode, genAttrR_hit]
          exact srcStep (srcStep (srcStep (wsF_src false ts) (ihS _ _ _ _ heq).1)
            (wsF_src false ts1)) (wsF_src true (wsF false ts1).2)
      | ExprS v =>
        simp only [annNode] at h
        split at h
        next => cases h
        next av ts1 heq =>
          simp only [Except.ok.injEq, Prod.mk.injEq] at h
          obtain ⟨h1, h2⟩ := h
          subst h1; subst h2
          refine ⟨?_, markSide rfl rfl⟩
          simp only [genNode, genAttrR_hit]
          exact srcStep (srcStep (wsF_src false ts) (ihN _ _ _ _ _ heq).1)
            (wsF_src true ts1)
      | NameE id =>
        simp only [annNode] at h
        split at h
        next => cases h
        next ts1 heq =>
          simp only [Except.ok.injEq, Prod.mk.injEq] at h
          obtain ⟨h1, h2⟩ := h
          subst h1; subst h2
          refine ⟨?_, markSide rfl rfl⟩
          simp only [genNode, genAttrR_hit]
          exact srcStep (srcStep (wsF_src false ts) (tokenF_src id _ _ heq))
            (wsF_src true ts1)
      | NumE num =>
        simp only [annNode] at h
        split at h
        next => cases h
        next r ts1 heq =>
          simp only [Except.ok.injEq, Prod.mk.injEq] at h
          obtain ⟨h1, h2⟩ := h
          subst h1; subst h2
          refine ⟨?_, markSide rfl rfl⟩
          obtain ⟨rk, rtext⟩ := r
          obtain ⟨hk, hsrc⟩ := attrF_src _ _ _ _ _ heq
          simp only at hk
          subst hk
          have hok : decide (lookupD [("n__src", PVal.intV num)] "n__src" =
              some (PVal.intV num)) = true := by simp [lookupD]
          simp only [genNode, hok, genAttrR_hit]
          exact srcStep (srcStep (wsF_src false ts) hsrc) (wsF_src true ts1)
      | ImportS names =>
        simp only [annNode] at h
        split at h
        next => cases h
        next ts1 heq1 =>
          split at h
          next => cases h
          next aal ts2 heq2 =>
            simp only [Except.ok.injEq, Prod.mk.injEq] at h
            obtain ⟨h1, h2⟩ := h
            subst h1; subst h2
            refine ⟨?_, markSide rfl rfl⟩
            simp only [genNode, genAttrR_hit]
            exact srcStep (srcStep (srcStep (wsF_src false ts)
              (tokenF_src "import" _ _ heq1)) (annAliasesI_gen _ _ _ _ heq2))
              (wsF_src true ts2)
      | ImportF module names level =>
        simp only [annNode] at h
        split at h
        next => cases h
        next ts1 heq1 =>
          split at h
          next => cases h
          next r1 ts2 heq2 =>
            split at h
            next => cases h
            next r2 ts3 heq3 =>
              split at h
              next => cases h
              next r3 ts4 heq4 =>
                split at h
                next => cases h
                next ts5 heq5 =>
                  split at h
                  next => cases h
                  next aal ts6 heq6 =>
                    simp only [Except.ok.injEq, Prod.mk.injEq] at h
                    obtain ⟨h1, h2⟩ := h
                    subst h1; subst h2
                    refine ⟨?_, markSide rfl rfl⟩
                    obtain ⟨r1k, r1t⟩ := r1
                    obtain ⟨r2k, r2t⟩ := r2
                    obtain ⟨r3k, r3t⟩ := r3
                    obtain ⟨hk1, hs1⟩ := attrF_src _ _ _ _ _ heq2
                    obtain ⟨hk2, hs2⟩ := attrF_src _ _ _ _ _ heq3
                    obtain ⟨hk3, hs3⟩ := attrF_src _ _ _ _ _ heq4
                    simp only at hk1 hk2 hk3
                    subst hk1; subst hk2; subst hk3
                    have hokm : decide (lookupD
                        [("level__src", PVal.natV level), ("module__src", PVal.optStrV module)]
                        "level__src" = some (PVal.natV level) ∧ lookupD
                        [("level__src", PVal.natV level), ("module__src", PVal.optStrV module)]
                        "module__src" = some (PVal.optStrV module)) = true := by
                      simp [lookupD]
                    simp only [genNode, hokm, genAttrR_hit]
                    exact srcStep (srcStep (srcStep (srcStep (srcStep (srcStep
                      (srcStep
                      (wsF_src false ts) (tokenF_src "from" _ _ heq1)) hs1) hs2)
                      hs3) (tokenF_src "import" _ _ heq5))
                      (annAliasesF_gen _ _ _ _ heq6))
                      (wsF_src true ts6)
      | IfS test body orelse =>
        simp only [annNode] at h
        split at h
        next => cases h
        next ts1 heq1 =>
          split at h
          next => cases h
          next atst ts2 heq2 =>
            split at h
            next => cases h
            next r1 ts3 heq3 =>
              split at h
              next => cases h
              next ab ts4 heq4 =>
                split at h
                next => cases h
                next ors aor ts5 heq5 =>
                  simp only [Except.ok.injEq, Prod.mk.injEq] at h
                  obtain ⟨h1, h2⟩ := h
                  subst h1; subst h2
                  obtain ⟨r1k, r1t⟩ := r1
                  obtain ⟨hk1, hs1⟩ := attrF_src _ _ _ _ _ heq3
                  simp only at hk1
                  subst hk1
                  have hore := ihO _ _ _ _ _ heq5 [⟨"suffix", (wsF true ts5).1⟩]
                  constructor
                  · simp only [genNode, List.cons_append, List.append_assoc,
                      genAttrR_hit]
                    have hkw : (if lookupD (if b = true then
                        [("is_elif", PVal.boolV true)] else []) "is_elif" =
                        some (PVal.boolV true) then "elif" else "if") =
                        (if b = true then "elif" else "if") := by
                      cases b <;> simp [lookupD]
                    rw [hkw]
                    simp only [List.nil_append]
                    rw [hore.1]
                    simp only [genAttrR_hit]
                    exact srcStep (srcStep (srcStep (srcStep (srcStep (srcStep
                      (wsF_src false ts) (tokenF_src _ _ _ heq1))
                      (ihN _ _ _ _ _ heq2).1) hs1) (ihS _ _ _ _ heq4).1)
                      hore.2) (wsF_src true ts5)
                  · constructor
                    · intro hb _
                      subst hb
                      simp [genIsElifMarked, lookupD]
                    · intro hb
                      subst hb
                      simp [genIsElifMarked, lookupD]
      | PassS =>
        simp only [annNode] at h
        split at h
        next => cases h
        next ts1 heq =>
          simp only [Except.ok.injEq, Prod.mk.injEq] at h
          obtain ⟨h1, h2⟩ := h
          subst h1; subst h2
          refine ⟨?_, markSide rfl rfl⟩
          simp only [genNode, genAttrR_hit]
          exact srcStep (srcStep (wsF_src false ts) (tokenF_src "pass" _ _ heq))
            (wsF_src true ts1)
    · -- annStmts
      intro l ts al ts' h
      cases l with
      | nil =>
        simp only [annStmts, Except.ok.injEq, Prod.mk.injEq] at h
        obtain ⟨h1, h2⟩ := h
        subst h1; subst h2
        exact ⟨by simp [genStmts], rfl, by intro x hx; cases hx⟩
      | cons n rest =>
        simp only [annStmts] at h
        split at h
        next => cases h
        next an ts1 heq1 =>
          split at h
          next => cases h
          next al2 ts2 heq2 =>
            simp only [Except.ok.injEq, Prod.mk.injEq] at h
            obtain ⟨h1, h2⟩ := h
            subst h1; subst h2
            obtain ⟨hsrc1, -, hmark1⟩ := ihN _ _ _ _ _ heq1
            obtain ⟨hsrc2, hlen2, hmark2⟩ := ihS _ _ _ _ heq2
            refine ⟨?_, by simp [hlen2], ?_⟩
            · simp only [genStmts]
              exact srcStep hsrc1 hsrc2
            · intro x hx
              cases hx with
              | head => exact hmark1 rfl
              | tail _ hx2 => exact hmark2 x hx2
    · -- annOrelse
      intro o ts ors aor ts' h
      cases o with
      | nil =>
        simp only [annOrelse, Except.ok.injEq, Prod.mk.injEq] at h
        obtain ⟨h1, h2, h3⟩ := h
        subst h1; subst h2; subst h3
        intro rest
        exact ⟨rfl, by simp [genOrelseR]⟩
      | cons o1 orest =>
        simp only [annOrelse] at h
        split at h
        next hguard =>
          split at h
          next => cases h
          next w hnn =>
            split at h
            next hw =>
              subst hw
              split at h
              next => cases h
              next ao ts1 heq1 =>
                simp only [Except.ok.injEq, Prod.mk.injEq] at h
                obtain ⟨h1, h2, h3⟩ := h
                subst h1; subst h2; subst h3
                intro rest
                obtain ⟨hsrc, hmark, -⟩ := ihN _ _ _ _ _ heq1
                have hIf : isIfNode o1 = true := by
                  rcases Bool.and_eq_true .. |>.mp hguard with ⟨-, h2⟩
                  exact h2
                have hm := hmark rfl hIf
                simp only [List.nil_append, genOrelseR]
                rw [if_pos (show (List.isEmpty ([] : List ANode) &&
                  genIsElifMarked ao) = true by simp [hm])]
                exact ⟨rfl, hsrc⟩
            next hw =>
              exact ihE _ _ _ _ _ _ h
        next hguard =>
          exact ihE _ _ _ _ _ _ h
    · -- annOrelseElse
      intro o1 orest ts ors aor ts' h
      simp only [annOrelseElse] at h
      split at h
      next => cases h
      next r1 ts1 heq1 =>
        split at h
        next => cases h
        next ts2 heq2 =>
          split at h
          next => cases h
          next r2 ts3 heq3 =>
            split at h
            next => cases h
            next aor2 ts4 heq4 =>
              simp only [Except.ok.injEq, Prod.mk.injEq] at h
              obtain ⟨h1, h2, h3⟩ := h
              subst h1; subst h2; subst h3
              intro rest
              obtain ⟨r1k, r1t⟩ := r1
              obtain ⟨r2k, r2t⟩ := r2
              obtain ⟨hk1, hs1⟩ := attrF_src _ _ _ _ _ heq1
              obtain ⟨hk2, hs2⟩ := attrF_src _ _ _ _ _ heq3
              simp only at hk1 hk2
              subst hk1; subst hk2
              obtain ⟨hsrc, hlen, hmark⟩ := ihS _ _ _ _ heq4
              match aor2, hlen, hsrc, hmark with
              | ao1 :: aorest, _, hsrc, hmark =>
                have hm1 : genIsElifMarked ao1 = false := hmark ao1 (by simp)
                simp only [genOrelseR, hm1, Bool.and_false, if_neg (by simp :
                  ¬ (aorest.isEmpty && false) = true)]
                simp only [List.cons_append, genAttrR_hit]
                refine ⟨rfl, ?_⟩
                have hgs : genNode ao1 ++ genStmts aorest = genStmts (ao1 :: aorest) := rfl
                rw [hgs]
                exact srcStep (srcStep (srcStep hs1 (tokenF_src "else" _ _ heq2))
                  hs2) hsrc

/-! ## The claims -/

/-- C1: for every source accepted by the annotator — any parse tree and
any token stream such that annotating the tree consumes the stream
completely and succeeds — generating code from the unmodified annotated
tree reproduces the original source exactly, byte for byte:
`generate(annotate(src, parse(src))) == src`. -/
theorem C1_round_trip_identity (fuel : Nat) (tree : Node) (src : List Tok)
    (an : ANode) (rest : TS)
    (h : annNode fuel false tree ⟨src, 0⟩ = .ok (an, rest))
    (hdone : rest.toks = []) :
    genNode an = sourceText src := by
  have hr := ((rtAll fuel).1 _ _ _ _ _ h).1
  rw [hdone] at hr
  calc genNode an = genNode an ++ "" := (String.append_empty _).symm
  _ = genNode an ++ sourceText [] := rfl
  _ = sourceText src := hr

theorem C1_round_trip_identity_witness :
    genNode c1an = sourceText c1toks ∧ sourceText c1toks = "import aaa, bbb\n" :=
  ⟨C1_round_trip_identity 30 c1tree c1toks c1an ⟨[], 0⟩ rfl rfl, rfl⟩

/-- C6: whenever the traversal requires a specific literal token (a
string element of an `attr` parts list) and the next token's text
differs, the annotator fails with the token-mismatch error; stream
exhaustion likewise fails; and both abort the whole annotation pass (the
error propagates from a statement to the statement list and to the
enclosing module visit), so no partial annotation is produced. -/
theorem C6_token_mismatch_fatal (v : String) (ts : TS) :
    (ts.toks = [] → tokenF v ts = .error .exhaustedStream) ∧
    (∀ t rest, ts.toks = t :: rest → t.text ≠ v →
       tokenF v ts = .error (.tokenMismatch v t.text)) ∧
    (∀ key ps t rest, ts.toks = t :: rest → t.text ≠ v →
       attrF key (.lit v :: ps) ts = .error (.tokenMismatch v t.text)) ∧
    (∀ fuel (n : Node) ns e, annNode fuel false n ts = .error e →
       annStmts (fuel + 1) (n :: ns) ts = .error e) ∧
    (∀ fuel stmts e, annStmts fuel stmts (wsF false ts).2 = .error e →
       annNode (fuel + 1) false (.Module stmts) ts = .error e) := by
  refine ⟨?_, ?_, ?_, ?_, ?_⟩
  · intro hnil
    obtain ⟨toks, parens⟩ := ts
    simp only at hnil
    subst hnil
    rfl
  · intro t rest hts hne
    obtain ⟨toks, parens⟩ := ts
    simp only at hts
    subst hts
    simp [tokenF, hne]
  · intro key ps t rest hts hne
    have htok : tokenF v ts = .error (.tokenMismatch v t.text) := by
      obtain ⟨toks, parens⟩ := ts
      simp only at hts
      subst hts
      simp [tokenF, hne]
    simp [attrF, runParts, htok]
  · intro fuel n ns e he
    simp [annStmts, he]
  · intro fuel stmts e he
    simp [annNode, he]

theorem C6_token_mismatch_fatal_witness :
    tokenF "pass" ⟨[.tk .nameK "import"], 0⟩ =
      .error (.tokenMismatch "pass" "import") ∧
    annNode 5 false (.Module [.PassS]) ⟨[.tk .nameK "import"], 0⟩ =
      .error (.tokenMismatch "pass" "import") ∧
    tokenF "pass" ⟨[], 0⟩ = .error .exhaustedStream := by
  refine ⟨?_, ?_, ?_⟩
  · exact (C6_token_mismatch_fatal "pass" ⟨[.tk .nameK "import"], 0⟩).2.1
      (.tk .nameK "import") [] rfl (by decide)
  · exact (C6_token_mismatch_fatal "pass" ⟨[.tk .nameK "import"], 0⟩).2.2.2.2
      4 [.PassS] (.tokenMismatch "pass" "import") rfl
  · exact (C6_token_mismatch_fatal "pass" ⟨[], 0⟩).1 rfl

/-- C8: for slots annotated with declared dependencies the annotator
stores, next to the captured text, a snapshot of each dependency's
current node-field value (`n` for a `Num` content slot; `level` and
`module` for an `ImportFrom` module slot); and the captured record is
replayed during regeneration if and only if the node's current dependency
value equals the snapshot — otherwise the canonical default rendering
(`str(node.n)` for a `Num`) is emitted. -/
theorem C8_dependency_snapshot :
    (∀ (num : Int) (fuel : Nat) ts an ts',
       annNode fuel false (.NumE num) ts = .ok (an, ts') →
       lookupD an.depsOf "n__src" = some (.intV num) ∧
       ∀ n', genNode (setNumA an n') =
         recTextAt an 0 ++ (if n' = num then recTextAt an 1 else intStr n') ++
           recTextAt an 2) ∧
    (∀ (module : Option String) (names : List IAlias) (level : Nat)
       (fuel : Nat) ts an ts',
       annNode fuel false (.ImportF module names level) ts = .ok (an, ts') →
       lookupD an.depsOf "level__src" = some (.natV level) ∧
       lookupD an.depsOf "module__src" = some (.optStrV module)) := by
  constructor
  · intro num fuel ts an ts' h
    cases fuel with
    | zero => simp [annNode] at h
    | succ fuel =>
      simp only [annNode] at h
      split at h
      next => cases h
      next r ts1 heq =>
        simp only [Except.ok.injEq, Prod.mk.injEq] at h
        obtain ⟨h1, h2⟩ := h
        subst h1; subst h2
        obtain ⟨rk, rtext⟩ := r
        obtain ⟨hk, -⟩ := attrF_src _ _ _ _ _ heq
        simp only at hk
        subst hk
        constructor
        · simp [ANode.depsOf, lookupD]
        · intro n'
          by_cases hn : n' = num
          · subst hn
            simp [setNumA, genNode, genAttrR, lookupD, recTextAt, ANode.recsOf]
          · have hn2 : ¬ num = n' := fun hh => hn hh.symm
            simp [setNumA, genNode, genAttrR, lookupD, recTextAt, ANode.recsOf,
              hn, hn2]
  · intro module names level fuel ts an ts' h
    cases fuel with
    | zero => simp [annNode] at h
    | succ fuel =>
      simp only [annNode] at h
      split at h
      next => cases h
      next ts1 heq1 =>
        split at h
        next => cases h
        next r1 ts2 heq2 =>
          split at h
          next => cases h
          next r2 ts3 heq3 =>
            split at h
            next => cases h
            next r3 ts4 heq4 =>
              split at h
              next => cases h
              next ts5 heq5 =>
                split at h
                next => cases h
                next aal ts6 heq6 =>
                  simp only [Except.ok.injEq, Prod.mk.injEq] at h
                  obtain ⟨h1, h2⟩ := h
                  subst h1; subst h2
                  constructor <;> simp [ANode.depsOf, lookupD]

theorem C8_dependency_snapshot_witness :
    lookupD c8an.depsOf "n__src" = some (.intV 5) ∧
    genNode (setNumA c8an 6) = "6" ∧
    genNode (setNumA c8an 5) = "0x5" := by
  have h := C8_dependency_snapshot.1 5 10 ⟨[.tk .numberK "0x5"], 0⟩ c8an ⟨[], 0⟩ rfl
  refine ⟨h.1, ?_, ?_⟩
  · have h6 := h.2 6
    simpa using h6
  · have h5 := h.2 5
    simpa using h5

/-- C9: for an `If` whose orelse is exactly one nested `If`, the
annotator decides between the flat `elif` chain and the nested
else-block by consulting the next keyword token of the stream: the nested
`If` is marked `is_elif` and annotated as a flat continuation (adding no
`else`/`:` records to the outer node) precisely when that token reads
`elif`; for any other keyword the `else` keyword, the colon and the
orelse statements are annotated as a nested block, and no nested
statement carries the `is_elif` marker. -/
theorem C9_elif_disambiguation (fuel : Nat) (it : Node) (ib io : List Node)
    (ts : TS) (w : String) (hnn : nextNameText ts.toks = some w) :
    (w = "elif" →
       annOrelse (fuel + 1) [.IfS it ib io] ts =
         (match annNode fuel true (.IfS it ib io) ts with
          | .error e => .error e
          | .ok (ao, ts1) => .ok ([], [ao], ts1))) ∧
    (w ≠ "elif" →
       annOrelse (fuel + 1) [.IfS it ib io] ts =
         annOrelseElse fuel [.IfS it ib io] ts) ∧
    (∀ an ts1, annNode fuel true (.IfS it ib io) ts = .ok (an, ts1) →
       lookupD an.depsOf "is_elif" = some (.boolV true)) ∧
    (∀ ors aor ts1, annOrelseElse fuel [.IfS it ib io] ts = .ok (ors, aor, ts1) →
       ors.map PRec.key = ["elseprefix", "elsesuffix"] ∧
       ∀ x ∈ aor, genIsElifMarked x = false) := by
  refine ⟨?_, ?_, ?_, ?_⟩
  · intro hw
    subst hw
    simp [annOrelse, isIfNode, hnn]
  · intro hw
    simp [annOrelse, isIfNode, hnn, hw]
  · intro an ts1 h
    cases fuel with
    | zero => simp [annNode] at h
    | succ fuel =>
      simp only [annNode] at h
      split at h
      next => cases h
      next ts1 heq1 =>
        split at h
        next => cases h
        next atst ts2 heq2 =>
          split at h
          next => cases h
          next r1 ts3 heq3 =>
            split at h
            next => cases h
            next ab ts4 heq4 =>
              split at h
              next => cases h
              next ors aor ts5 heq5 =>
                simp only [Except.ok.injEq, Prod.mk.injEq] at h
                obtain ⟨h1, h2⟩ := h
                subst h1
                simp [ANode.depsOf, lookupD]
  · intro ors aor ts1 h
    cases fuel with
    | zero => simp [annOrelseElse] at h
    | succ fuel =>
      simp only [annOrelseElse] at h
      split at h
      next => cases h
      next r1 ts2 heq1 =>
        split at h
        next => cases h
        next ts3 heq2 =>
          split at h
          next => cases h
          next r2 ts4 heq3 =>
            split at h
            next => cases h
            next aor2 ts5 heq4 =>
              simp only [Except.ok.injEq, Prod.mk.injEq] at h
              obtain ⟨h1, h2, h3⟩ := h
              subst h1; subst h2
              obtain ⟨hk1, -⟩ := attrF_src _ _ _ _ _ heq1
              obtain ⟨hk2, -⟩ := attrF_src _ _ _ _ _ heq3
              refine ⟨by simp [hk1, hk2], ?_⟩
              exact ((rtAll fuel).2.1 _ _ _ _ heq4).2.2

theorem C9_elif_disambiguation_witness :
    annOrelse 11 [.IfS (.NameE "y") [.PassS] []] c9ts =
      .ok ([], [c9an], ⟨[.wst "\n" true], 0⟩) ∧
    lookupD c9an.depsOf "is_elif" = some (.boolV true) := by
  have h := C9_elif_disambiguation 10 (.NameE "y") [.PassS] [] c9ts "elif" rfl
  constructor
  · rw [h.1 rfl]
    rfl
  · exact h.2.2.1 c9an ⟨[.wst "\n" true], 0⟩ rfl

/-! ## Scope claims -/

theorem assocFind_append (f : List (String × Nat)) (x : String) (n : Nat)
    (h : assocFind f x = none) : assocFind (f ++ [(x, n)]) x = some n := by
  induction f with
  | nil => simp [assocFind]
  | cons p rest ih =>
    obtain ⟨k, v⟩ := p
    simp only [assocFind] at h
    simp only [List.cons_append, assocFind]
    split at h
    next => cases h
    next hk => rw [if_neg hk]; exact ih h

/-- C3: scope lookup never fails: looking up an identifier that no scope
in the chain defines — the root scope included — implicitly creates a
fresh `Name` for it in the root scope (the last frame of the chain) and
returns it, so `lookup_name` always returns a `Name`; and a second lookup
of the same identifier returns the very same `Name` (the same store
index) without changing any state. -/
theorem C3_lookup_name_never_fails :
    ∀ (frames : List (List (String × Nat))) (store : List NameData) (x : String),
    frames ≠ [] →
    (∀ f ∈ frames, assocFind f x = none) →
    (lookupNameFrames frames store x).1 = store.length ∧
    (lookupNameFrames frames store x).2.1 = updateRoot frames x store.length ∧
    (lookupNameFrames frames store x).2.2 = store ++ [⟨x, none, [], []⟩] ∧
    lookupNameFrames (updateRoot frames x store.length)
        (store ++ [⟨x, none, [], []⟩]) x =
      (store.length, updateRoot frames x store.length,
       store ++ [⟨x, none, [], []⟩]) := by
  intro frames
  induction frames with
  | nil => intro store x hne hall; exact absurd rfl hne
  | cons f rest ih =>
    intro store x hne hall
    have hf : assocFind f x = none := hall f (by simp)
    cases rest with
    | nil =>
      simp only [lookupNameFrames, hf, updateRoot]
      refine ⟨trivial, trivial, trivial, ?_⟩
      simp [lookupNameFrames, assocFind_append f x store.length hf]
    | cons g rest2 =>
      have hrest : ∀ fr ∈ g :: rest2, assocFind fr x = none := fun fr hfr =>
        hall fr (by simp [hfr])
      obtain ⟨ih1, ih2, ih3, ih4⟩ := ih store x (by simp) hrest
      simp only [lookupNameFrames, hf]
      refine ⟨ih1, ?_, ih3, ?_⟩
      · simp only [updateRoot]
        rw [ih2]
      · have hcons : ∃ h2 t2, updateRoot (g :: rest2) x store.length = h2 :: t2 := by
          cases rest2 <;> simp [updateRoot]
        obtain ⟨h2, t2, hL⟩ := hcons
        simp only [updateRoot]
        rw [hL]
        simp only [lookupNameFrames, hf]
        rw [← hL, ih4]

theorem C3_lookup_name_never_fails_witness :
    (lookupNameFrames [[("y", 0)], []] [⟨"y", none, [], []⟩] "foo").1 = 1 ∧
    (lookupNameFrames [[("y", 0)], []] [⟨"y", none, [], []⟩] "foo").2.1 =
      [[("y", 0)], [("foo", 1)]] := by
  have h := C3_lookup_name_never_fails [[("y", 0)], []] [⟨"y", none, [], []⟩]
    "foo" (by simp) (by decide)
  exact ⟨h.1, h.2.1⟩

/-- C4: for the input that defines `x` at module scope and re-defines `x`
as a parameter of the function `f`, scope analysis resolves the read of
`x` inside the function body (node 8) to the parameter's `Name` (store
index 2, whose definition is the parameter node 6), and resolves the read
outside the function (node 10) to the module-level `Name` (store index 0,
whose definition is the module-level assignment target node 2); the two
`Name`s are distinct. -/
theorem C4_scope_shadowing :
    assocFindN (analyze 20 shadowTree).nodeNames 8 = some 2 ∧
    assocFindN (analyze 20 shadowTree).nodeNames 10 = some 0 ∧
    (2 : Nat) ≠ 0 ∧
    (storeGet (analyze 20 shadowTree).store 2).definition = some 6 ∧
    (storeGet (analyze 20 shadowTree).store 2).id = "x" ∧
    (storeGet (analyze 20 shadowTree).store 0).definition = some 2 ∧
    (storeGet (analyze 20 shadowTree).store 0).id = "x" := by
  decide

/-- C5 counterexample: for the input `import aaa.bbb`, the
external-reference table holds, under both keys, the list `[2]` — node 2
is the `ast.alias` child — and not the `ast.Import` statement node 1, so
the entries do not reference the import node as the claim states. -/
theorem C5_counterexample :
    extLookup (analyze 10 importTree).ext "aaa" = some [2] ∧
    extLookup (analyze 10 importTree).ext "aaa.bbb" = some [2] ∧
    ¬ 1 ∈ (extLookup (analyze 10 importTree).ext "aaa").getD [] ∧
    ¬ 1 ∈ (extLookup (analyze 10 importTree).ext "aaa.bbb").getD [] := by
  decide

/-- C5 (amended): after scope analysis of a tree containing
`import aaa.bbb`, the root scope's external-reference table contains
entries under both the key "aaa" and the key "aaa.bbb", each referencing
the alias node of the import statement (node 2), whose parent in the
node-to-parent index is the import node (node 1). -/
theorem C5_external_reference_indexing :
    extLookup (analyze 10 importTree).ext "aaa" = some [2] ∧
    extLookup (analyze 10 importTree).ext "aaa.bbb" = some [2] ∧
    assocFindP (analyze 10 importTree).parents 2 = some (some 1) := by
  decide

/-! ## Import-splitting claims -/

theorem idxOfNid_append (l1 l2 : List Node2) (node : Node2)
    (h1 : ∀ c ∈ l1, c.nid ≠ node.nid) :
    idxOfNid (l1 ++ node :: l2) node.nid = l1.length := by
  induction l1 with
  | nil => simp [idxOfNid]
  | cons c rest ih =>
    simp only [List.cons_append, idxOfNid, List.append_eq]
    rw [if_neg (h1 c (by simp)), ih (fun c2 hc => h1 c2 (by simp [hc]))]
    simp

theorem pyRemoveAlias_append (ns1 ns2 : List Alias2) (al : Alias2)
    (h : ∀ b ∈ ns1, b.aid ≠ al.aid) :
    pyRemoveAlias (ns1 ++ al :: ns2) al.aid = ns1 ++ ns2 := by
  induction ns1 with
  | nil => simp [pyRemoveAlias]
  | cons b rest ih =>
    simp only [List.cons_append, pyRemoveAlias, List.append_eq]
    rw [if_neg (h b (by simp)), ih (fun b2 hb => h b2 (by simp [hb]))]

theorem pyInsert_mid (l1 l2 : List Node2) (y x : Node2) :
    pyInsert (l1.length + 1) x (l1 ++ y :: l2) = l1 ++ y :: x :: l2 := by
  induction l1 with
  | nil => simp [pyInsert]
  | cons c rest ih =>
    simp only [pyInsert, List.cons_append, List.length_cons, List.take_succ_cons,
      List.drop_succ_cons] at ih ⊢
    rw [ih]

theorem map_id_of_ne (l : List Node2) (i : Nat) (g : Node2 → Node2)
    (h : ∀ c ∈ l, c.nid ≠ i) :
    l.map (fun c => if c.nid = i then g c else c) = l := by
  induction l with
  | nil => rfl
  | cons c rest ih =>
    simp only [List.map_cons]
    rw [if_neg (h c (by simp)), ih (fun c2 hc => h c2 (by simp [hc]))]

theorem mapIfNid (l1 l2 : List Node2) (node : Node2) (g : Node2 → Node2)
    (h1 : ∀ c ∈ l1, c.nid ≠ node.nid) (h2 : ∀ c ∈ l2, c.nid ≠ node.nid) :
    (l1 ++ node :: l2).map (fun c => if c.nid = node.nid then g c else c) =
      l1 ++ g node :: l2 := by
  induction l1 with
  | nil =>
    simp only [List.nil_append, List.map_cons, eq_self_iff_true, if_true]
    rw [map_id_of_ne l2 node.nid g h2]
  | cons c rest ih =>
    simp only [List.cons_append, List.map_cons]
    rw [if_neg (h1 c (by simp)), ih (fun c2 hc => h1 c2 (by simp [hc]))]

theorem applyEffect_nid (e : Effect) (p : Node2) :
    (applyEffect e p).nid = p.nid := by
  cases e with
  | removeAlias tid aid =>
    cases p with
    | mk nid kind b o fb names =>
      simp only [applyEffect]
      split <;> rfl
  | insertChild pid a idx nn =>
    cases p with
    | mk nid kind b o fb names =>
      simp only [applyEffect]
      split <;> rfl

theorem applyEffect_remove_getL (p : Node2) (tid aid : Nat) (a : LAttr)
    (hp : p.nid ≠ tid) :
    getL (applyEffect (.removeAlias tid aid) p) a =
      (getL p a).map (List.map (fun c => if c.nid = tid then
        setNames c (pyRemoveAlias c.names aid) else c)) := by
  cases p with
  | mk nid kind b o fb names =>
    simp only [applyEffect, Node2.nid] at hp ⊢
    rw [if_neg hp]
    cases a <;> rfl

theorem applyEffect_insert_getL (p : Node2) (pid : Nat) (a : LAttr) (idx : Nat)
    (nn : Node2) (hp : p.nid = pid) :
    getL (applyEffect (.insertChild pid a idx nn) p) a =
      (getL p a).map (pyInsert idx nn) := by
  cases p with
  | mk nid kind b o fb names =>
    simp only [applyEffect, Node2.nid] at hp ⊢
    rw [if_pos hp]
    cases a <;> simp [updLists, getL]

/-- C2: for an import node that is an element of one of its parent's
`body`/`orelse`/`finalbody` lists (located exactly as `split_import`'s
lookup does), and an alias element of `node.names`, `split_import`
removes that alias from `node.names` leaving the remaining aliases in
order, creates a new import node of the same kind whose names list is
exactly `[alias]`, inserts the new node into the same containing list
immediately after the original node, and returns the new node.
Identity hypotheses: node ids are unique in the containing list, the
parent is a different object from the node, and alias ids are unique in
`node.names`. -/
theorem C2_split_import (parent node : Node2) (al : Alias2) (freshId : Nat)
    (a : LAttr) (l1 l2 : List Node2) (ns1 ns2 : List Alias2)
    (hloc : locateList parent node.nid = some (a, l1 ++ node :: l2))
    (hgl : getL parent a = some (l1 ++ node :: l2))
    (h1 : ∀ c ∈ l1, c.nid ≠ node.nid)
    (h2 : ∀ c ∈ l2, c.nid ≠ node.nid)
    (hp : parent.nid ≠ node.nid)
    (hns : node.names = ns1 ++ al :: ns2)
    (hns1 : ∀ b ∈ ns1, b.aid ≠ al.aid) :
    (split_import parent node al freshId).2 =
      .ok (setNid (setNames node [al]) freshId) ∧
    (setNid (setNames node [al]) freshId).kind = node.kind ∧
    (setNid (setNames node [al]) freshId).names = [al] ∧
    getL (applyEffects (split_import parent node al freshId).1 parent) a =
      some (l1 ++ setNames node (ns1 ++ ns2) ::
        setNid (setNames node [al]) freshId :: l2) := by
  have hsplit : split_import parent node al freshId =
      ([.removeAlias node.nid al.aid,
        .insertChild parent.nid a (idxOfNid (l1 ++ node :: l2) node.nid + 1)
          (setNid (setNames node [al]) freshId)],
       .ok (setNid (setNames node [al]) freshId)) := by
    simp [split_import, hloc]
  rw [hsplit]
  refine ⟨rfl, ?_, ?_, ?_⟩
  · cases node; rfl
  · cases node; rfl
  · simp only [applyEffects, List.foldl]
    rw [applyEffect_insert_getL _ _ _ _ _ (applyEffect_nid _ _)]
    rw [applyEffect_remove_getL _ _ _ _ hp, hgl]
    simp only [Option.map_some']
    rw [mapIfNid l1 l2 node _ h1 h2]
    rw [idxOfNid_append l1 l2 node h1]
    rw [hns, pyRemoveAlias_append ns1 ns2 al hns1]
    rw [pyInsert_mid]

theorem C2_split_import_witness :
    (split_import c2parent c2node ⟨11, "bbb", none⟩ 99).2 =
      .ok (setNid (setNames c2node [⟨11, "bbb", none⟩]) 99) ∧
    getL (applyEffects (split_import c2parent c2node ⟨11, "bbb", none⟩ 99).1
        c2parent) .bodyA =
      some ([] ++ setNames c2node ([⟨10, "aaa", none⟩] ++ [⟨12, "ccc", none⟩]) ::
        setNid (setNames c2node [⟨11, "bbb", none⟩]) 99 :: []) := by
  have h := C2_split_import c2parent c2node ⟨11, "bbb", none⟩ 99 .bodyA
    [] [] [⟨10, "aaa", none⟩] [⟨12, "ccc", none⟩]
    rfl rfl (by simp) (by simp) (by decide) rfl (by decide)
  exact ⟨h.1, h.2.2.2⟩

/-- C7: `split_import` fails with the structural-lookup error
(`InvalidAstError`) when the given node is not found in any of its
parent's candidate child-list attributes `body`, `orelse`, `finalbody`;
it does not return a result in that case (and performs no mutation). -/
theorem C7_split_import_lookup_error (parent node : Node2) (al : Alias2)
    (freshId : Nat)
    (h : ∀ (a : LAttr) (l : List Node2), getL parent a = some l →
      containsNid l node.nid = false) :
    split_import parent node al freshId = ([], .error .invalidAstError) := by
  have hb : tryAttr parent .bodyA node.nid = none := by
    unfold tryAttr
    cases hgb : getL parent .bodyA with
    | none => rfl
    | some l => simp [h .bodyA l hgb]
  have ho : tryAttr parent .orelseA node.nid = none := by
    unfold tryAttr
    cases hgo : getL parent .orelseA with
    | none => rfl
    | some l => simp [h .orelseA l hgo]
  have hf : tryAttr parent .finalA node.nid = none := by
    unfold tryAttr
    cases hgf : getL parent .finalA with
    | none => rfl
    | some l => simp [h .finalA l hgf]
  have hloc : locateList parent node.nid = none := by
    simp [locateList, hb, ho, hf]
  simp [split_import, hloc]

theorem C7_split_import_lookup_error_witness :
    split_import c7parent c2node ⟨11, "bbb", none⟩ 99 =
      ([], .error .invalidAstError) := by
  exact C7_split_import_lookup_error c7parent c2node ⟨11, "bbb", none⟩ 99
    (fun a l hl => by cases a <;> simp [c7parent, getL] at hl)

/-- C10: when `split_import` raises its structural-lookup error, the tree
is left completely unmodified: the function performs no mutation at all
(its mutation trace is empty, so applying it to any node is the
identity) — the error is raised before any mutation occurs. -/
theorem C10_error_before_mutation (parent node : Node2) (al : Alias2)
    (freshId : Nat) (e : AugErr)
    (h : (split_import parent node al freshId).2 = .error e) :
    (split_import parent node al freshId).1 = [] ∧
    ∀ t, applyEffects (split_import parent node al freshId).1 t = t := by
  cases hloc : locateList parent node.nid with
  | none =>
    refine ⟨?_, fun t => ?_⟩ <;> simp [split_import, hloc, applyEffects]
  | some r =>
    obtain ⟨a, l⟩ := r
    simp [split_import, hloc] at h

theorem C10_error_before_mutation_witness :
    (split_import c7parent c2node ⟨11, "bbb", none⟩ 99).1 = [] ∧
    applyEffects (split_import c7parent c2node ⟨11, "bbb", none⟩ 99).1
      c2parent = c2parent := by
  have h := C10_error_before_mutation c7parent c2node ⟨11, "bbb", none⟩ 99
    .invalidAstError rfl
  exact ⟨h.1, h.2 c2parent⟩

end Pasta
